import Mathlib

/-!
# Binding emulation of `let` and `const` (`let.js`, `const.js`)

Both files keep a scope object `__scope__`, run a loop that pre-registers the
identifiers collected in `__variable__`, and export one declaring function
(`__let__`, `__const__`) that installs an accessor property through
`Object.defineProperty`.  A client reads a binding with `__scope__.x` and writes
it with `__scope__.x = w`.

The embedding keeps the own properties of `__scope__` with their attributes, the
function objects the source creates (identified by the activation that created
them), the captured `value` __variable__, and the global `property` variable that
the dead-zone getter reads when it is called.
-/

set_option autoImplicit false

namespace Handwrite

/-! ## Values, errors, completions -/

/-- JavaScript values.  A number is kept as its binary64 bit pattern, a client
object as an opaque reference, a built-in object by its name. -/
inductive Value where
  | undefined
  | null
  | boolean (b : Bool)
  | number (bits : Nat)
  | string (s : String)
  | object (ref : Nat)
  | intrinsic (name : String)
deriving DecidableEq, Repr

/-- The numbers used in the worked scenarios, as binary64 bit patterns:
`0`, `1`, `2`, `3` and `3.14`. -/
def Value.zero : Value := Value.number 0x0000000000000000
def Value.one : Value := Value.number 0x3FF0000000000000
def Value.two : Value := Value.number 0x4000000000000000
def Value.three : Value := Value.number 0x4008000000000000
def Value.pi : Value := Value.number 0x40091EB851EB851F

/-- The three error constructors the source and `Object.defineProperty` throw. -/
inductive JSError where
  | SyntaxError (message : String)
  | ReferenceError (message : String)
  | TypeError (message : String)
deriving DecidableEq, Repr

/-- How an operation ends: with a result, with a thrown error, or by handing
control to an object that no file of the repository creates (`outside`). -/
inductive Completion (α : Type) where
  | normal (a : α)
  | throw (e : JSError)
  | outside
deriving DecidableEq, Repr

/-! ## Function objects and properties -/

/-- The function objects the source creates.  `deadZoneGet i` is the `get()` of
the loop iteration `i`; the other four are the `get`/`set` of the activation
`env` of `__let__` or `__const__`.  Two function objects are the same object
exactly when they are equal here. -/
inductive Fn where
  | deadZoneGet (i : Nat)
  | letGet (env : Nat)
  | letSet (env : Nat)
  | constGet (env : Nat)
  | constSet (env : Nat)
deriving DecidableEq, Repr

/-- An own property with its attributes. -/
inductive Property where
  | data (value : Value) (writable enumerable configurable : Bool)
  | accessor (get set : Option Fn) (enumerable configurable : Bool)
deriving DecidableEq, Repr

/-- The own properties of an object, in creation order. -/
abbrev PropertyTable := List (String × Property)

/-- The `[[Prototype]]` of the scope object: `Object.prototype` for `{}`, or
`null` after `__scope__.__proto__ = null`. -/
inductive Proto where
  | objectPrototype
  | null
deriving DecidableEq, Repr

/-- The state the two files share in shape: the own properties of `__scope__`,
its prototype, the captured `value` variable of every activation of `__let__`
and `__const__` that created closures, and the global `var property`. -/
structure State where
  scope : PropertyTable
  proto : Proto
  cells : List Value
  property : Option String
deriving DecidableEq, Repr

/-- State after `var __scope__ = {}; var __variable__ = [];` and before the loop. -/
def initial : State :=
  { scope := [], proto := Proto.objectPrototype, cells := [], property := none }

/-! ## Own properties and `Object.defineProperty` -/

/-- The `[[GetOwnProperty]]` of an ordinary object. -/
def getOwnProperty (t : PropertyTable) (key : String) : Option Property :=
  t.lookup key

/-- Replace the property stored under `key`, or create it at the end. -/
def setOwnProperty (t : PropertyTable) (key : String) (p : Property) : PropertyTable :=
  match getOwnProperty t key with
  | some _ => t.map (fun kp => if kp.1 = key then (key, p) else kp)
  | none => t ++ [(key, p)]

/-- The accessor descriptors the source passes to `Object.defineProperty`:
`configurable`, `enumerable` and `get` are always written out, `set` only by
`__let__` and `__const__` (`none` is an absent field). -/
structure Descriptor where
  configurable : Bool
  enumerable : Bool
  get : Fn
  set : Option Fn
deriving DecidableEq, Repr

/-- ValidateAndApplyPropertyDescriptor on an extensible ordinary object, for an
accessor descriptor; `none` is the rejected definition. -/
def defineOwnProperty (t : PropertyTable) (key : String) (d : Descriptor) :
    Option PropertyTable :=
  match getOwnProperty t key with
  | none =>
      some (t ++ [(key, Property.accessor (some d.get) d.set d.enumerable d.configurable)])
  | some (Property.data _ _ _ c) =>
      if c then
        some (setOwnProperty t key
          (Property.accessor (some d.get) d.set d.enumerable d.configurable))
      else none
  | some (Property.accessor g s e c) =>
      if c then
        some (setOwnProperty t key
          (Property.accessor (some d.get)
            (match d.set with
              | some f => some f
              | none => s)
            d.enumerable d.configurable))
      else if d.configurable then none
      else if d.enumerable ≠ e then none
      else if g ≠ some d.get then none
      else
        match d.set with
        | some f => if s ≠ some f then none else some t
        | none => some t

/-- The call `Object.defineProperty(__scope__, key, d)`: a rejected definition
is a TypeError.  (The call returns `__scope__` itself; the result is not kept.) -/
def objectDefineProperty (s : State) (key : String) (d : Descriptor) :
    Completion Unit × State :=
  match defineOwnProperty s.scope key d with
  | some t => (Completion.normal (), { s with scope := t })
  | none => (Completion.throw (JSError.TypeError ("Cannot redefine property: " ++ key)), s)

/-! ## Calling the function objects of the source -/

/-- The string that `"..." + property + "..."` splices in. -/
def propertyText (p : Option String) : String :=
  match p with
  | some x => x
  | none => "undefined"

/-- Call of a function object of the source with the given arguments. -/
def call (f : Fn) (args : List Value) (s : State) : Completion Value × State :=
  match f with
  | Fn.deadZoneGet _ =>
      (Completion.throw (JSError.ReferenceError
        ("Cannot access " ++ propertyText s.property ++ " before initialization")), s)
  | Fn.letGet env => (Completion.normal (s.cells.getD env Value.undefined), s)
  | Fn.letSet env =>
      (Completion.normal Value.undefined,
        { s with cells := s.cells.set env (args.headD Value.undefined) })
  | Fn.constGet env => (Completion.normal (s.cells.getD env Value.undefined), s)
  | Fn.constSet _ =>
      (Completion.throw (JSError.TypeError "Assignment to constant variable"), s)

/-! ## The declaring functions -/

/-- The function `__let__(key, value)` of `let.js`, called as `__let__(key, ...rest)`:
`value` is the first of `rest`, or `undefined`. -/
def __let__ (s : State) (key : String) (rest : List Value) : Completion Unit × State :=
  let env := s.cells.length
  objectDefineProperty { s with cells := s.cells ++ [rest.headD Value.undefined] } key
    { configurable := false, enumerable := false,
      get := Fn.letGet env, set := some (Fn.letSet env) }

/-- The function `__const__(key, value)` of `const.js`, called as
`__const__(key, ...rest)`, so that `arguments.length` is `rest.length + 1`. -/
def __const__ (s : State) (key : String) (rest : List Value) : Completion Unit × State :=
  if rest.length + 1 = 1 then
    (Completion.throw (JSError.SyntaxError "Missing initializer in const declaration"), s)
  else
    let env := s.cells.length
    objectDefineProperty { s with cells := s.cells ++ [rest.headD Value.undefined] } key
      { enumerable := false, configurable := false,
        get := Fn.constGet env, set := some (Fn.constSet env) }

/-! ## Reading and writing a binding: `__scope__.x` and `__scope__.x = w` -/

/-- The function-valued members of a pristine `Object.prototype`. -/
def objectPrototypeMethods : List String :=
  ["hasOwnProperty", "isPrototypeOf", "propertyIsEnumerable", "toLocaleString",
   "toString", "valueOf", "__defineGetter__", "__defineSetter__",
   "__lookupGetter__", "__lookupSetter__"]

/-- What `Object.prototype` answers for `key` when the scope object has no own
property of that name. -/
def objectPrototypeGet (key : String) : Value :=
  if key = "__proto__" then Value.intrinsic "Object.prototype"
  else if key = "constructor" then Value.intrinsic "Object"
  else if key ∈ objectPrototypeMethods then Value.intrinsic ("Object.prototype." ++ key)
  else Value.undefined

/-- The expression `__scope__.key`: the `[[Get]]` of the scope object. -/
def read (s : State) (key : String) : Completion Value × State :=
  match getOwnProperty s.scope key with
  | some (Property.data v _ _ _) => (Completion.normal v, s)
  | some (Property.accessor (some g) _ _ _) => call g [] s
  | some (Property.accessor none _ _ _) => (Completion.normal Value.undefined, s)
  | none =>
      match s.proto with
      | Proto.objectPrototype => (Completion.normal (objectPrototypeGet key), s)
      | Proto.null => (Completion.normal Value.undefined, s)

/-- The property an assignment to an absent key creates. -/
def createDataProperty (s : State) (key : String) (w : Value) : State :=
  { s with scope := s.scope ++ [(key, Property.data w true true true)] }

/-- The statement `__scope__.key = w`: the `[[Set]]` of the scope object,
followed by the TypeError of strict code when `[[Set]]` answers `false`. -/
def write (strict : Bool) (s : State) (key : String) (w : Value) :
    Completion Unit × State :=
  match getOwnProperty s.scope key with
  | some (Property.data _ writable e c) =>
      if writable then
        (Completion.normal (),
          { s with scope := setOwnProperty s.scope key (Property.data w true e c) })
      else if strict then
        (Completion.throw (JSError.TypeError
          ("Cannot assign to read only property '" ++ key ++ "' of object '#<Object>'")), s)
      else (Completion.normal (), s)
  | some (Property.accessor _ (some f) _ _) =>
      match call f [w] s with
      | (Completion.normal _, s1) => (Completion.normal (), s1)
      | (Completion.throw err, s1) => (Completion.throw err, s1)
      | (Completion.outside, s1) => (Completion.outside, s1)
  | some (Property.accessor _ none _ _) =>
      if strict then
        (Completion.throw (JSError.TypeError
          ("Cannot set property " ++ key ++ " of #<Object> which has only a getter")), s)
      else (Completion.normal (), s)
  | none =>
      match s.proto with
      | Proto.null => (Completion.normal (), createDataProperty s key w)
      | Proto.objectPrototype =>
          if key = "__proto__" then
            match w with
            | Value.null => (Completion.normal (), { s with proto := Proto.null })
            | Value.object _ => (Completion.outside, s)
            | Value.intrinsic n =>
                if n = "Object.prototype" then (Completion.normal (), s)
                else (Completion.outside, s)
            | _ => (Completion.normal (), s)
          else (Completion.normal (), createDataProperty s key w)

/-! ## The loop over `__variable__` -/

/-- The call `__scope__.hasOwnProperty(key)`: the method is looked up on the
scope object first, so an own property named `hasOwnProperty` takes its place. -/
def hasOwnPropertyCall (s : State) (key : String) : Completion Bool × State :=
  match read s "hasOwnProperty" with
  | (Completion.normal f, s1) =>
      match f with
      | Value.intrinsic n =>
          if n = "Object.prototype.hasOwnProperty" then
            (Completion.normal (getOwnProperty s1.scope key).isSome, s1)
          else (Completion.outside, s1)
      | Value.object _ => (Completion.outside, s1)
      | _ =>
          (Completion.throw (JSError.TypeError "__scope__.hasOwnProperty is not a function"), s1)
  | (Completion.throw err, s1) => (Completion.throw err, s1)
  | (Completion.outside, s1) => (Completion.outside, s1)

/-- The iterations of `for (var i = 0; i < __variable__.length; i++)` from index
`i` on, over the elements that remain.  The loop has the same text in `let.js`
and in `const.js`.  Each iteration assigns the global `property`, which every
`get()` created by the loop reads when it is called. -/
def predeclareFrom (i : Nat) (__variable__ : List String) (s : State) :
    Completion Unit × State :=
  match __variable__ with
  | [] => (Completion.normal (), s)
  | x :: rest =>
      match hasOwnPropertyCall { s with property := some x } x with
      | (Completion.normal true, s1) =>
          (Completion.throw (JSError.SyntaxError
            ("Identifier " ++ propertyText s1.property ++ " has already been declared")), s1)
      | (Completion.normal false, s1) =>
          match objectDefineProperty s1 (propertyText s1.property)
              { configurable := true, enumerable := false,
                get := Fn.deadZoneGet i, set := none } with
          | (Completion.normal _, s2) => predeclareFrom (i + 1) rest s2
          | (Completion.throw err, s2) => (Completion.throw err, s2)
          | (Completion.outside, s2) => (Completion.outside, s2)
      | (Completion.throw err, s1) => (Completion.throw err, s1)
      | (Completion.outside, s1) => (Completion.outside, s1)

/-- The whole loop of the module body, for a given content of `__variable__`. -/
def predeclare (__variable__ : List String) (s : State) : Completion Unit × State :=
  predeclareFrom 0 __variable__ s

/-- A run of assignments `__scope__.key = w` for the values of `ws` in order:
the completions, and the state reached. -/
def writeAll (strict : Bool) (s : State) (key : String) :
    List Value → List (Completion Unit) × State
  | [] => ([], s)
  | w :: ws =>
      let r := write strict s key w
      let rs := writeAll strict r.2 key ws
      (r.1 :: rs.1, rs.2)

/-! ## Well-formed states -/

/-- The function object belongs to an activation that exists among `n` cells. -/
def Fn.allocated (n : Nat) : Fn → Bool
  | Fn.deadZoneGet _ => true
  | Fn.letGet env => decide (env < n)
  | Fn.letSet env => decide (env < n)
  | Fn.constGet env => decide (env < n)
  | Fn.constSet env => decide (env < n)

/-- The function objects a property holds. -/
def Property.functions : Property → List Fn
  | Property.data _ _ _ _ => []
  | Property.accessor g st _ _ => g.toList ++ st.toList

/-- Every closure stored in the scope object has its captured variable.  This
holds in `initial` and is kept by every operation (lemmas `wellFormed_initial`
to `predeclareFrom_wellFormed`, and `deleteProperty_wellFormed`). -/
def WellFormed (s : State) : Prop :=
  ∀ kp ∈ s.scope, ∀ f ∈ kp.2.functions, f.allocated s.cells.length = true

instance (s : State) : Decidable (WellFormed s) := by
  unfold WellFormed; infer_instance

/-- The identifier is a binding installed by `__let__` (`frozen = false`) or by
`__const__` (`frozen = true`) in the activation `env`. -/
def Declared (s : State) (key : String) (frozen : Bool) (env : Nat) : Prop :=
  getOwnProperty s.scope key =
    some (if frozen then
        Property.accessor (some (Fn.constGet env)) (some (Fn.constSet env)) false false
      else Property.accessor (some (Fn.letGet env)) (some (Fn.letSet env)) false false)

instance (s : State) (key : String) (frozen : Bool) (env : Nat) :
    Decidable (Declared s key frozen env) := by
  unfold Declared; infer_instance

/-- The identifier is in the dead zone: the accessor installed by the loop. -/
def DeadZone (s : State) (key : String) : Prop :=
  ∃ i, getOwnProperty s.scope key =
    some (Property.accessor (some (Fn.deadZoneGet i)) none false true)

/-- The value of `property` after the loop has run over the given names. -/
def lastAssigned (p : Option String) (names : List String) : Option String :=
  names.foldl (fun _ x => some x) p

/-! ## The module body, sequences of operations, nested scopes -/

/-- The list `var __variable__ = [];` as both files write it. -/
def __variable__ : List String := []

/-- The module body up to the end of the loop: the scope object is created
empty and the loop runs over `__variable__`. -/
def moduleBody : Completion Unit × State :=
  predeclare __variable__ initial

/-- The declaring function of either file: `__const__` when `frozen`, `__let__`
otherwise. -/
def declare (frozen : Bool) (s : State) (key : String) (rest : List Value) :
    Completion Unit × State :=
  if frozen then __const__ s key rest else __let__ s key rest

/-- The `configurable` attribute of an own property. -/
def Property.isConfigurable : Property → Bool
  | Property.data _ _ _ c => c
  | Property.accessor _ _ _ c => c

/-- The expression `delete __scope__.key`: the `[[Delete]]` of the scope object,
followed by the TypeError of strict code when `[[Delete]]` answers `false`. -/
def deleteProperty (strict : Bool) (s : State) (key : String) : Completion Bool × State :=
  match getOwnProperty s.scope key with
  | none => (Completion.normal true, s)
  | some p =>
      if p.isConfigurable then
        (Completion.normal true,
          { s with scope := s.scope.filter (fun kp => decide (kp.1 ≠ key)) })
      else if strict then
        (Completion.throw (JSError.TypeError
          ("Cannot delete property '" ++ key ++ "' of #<Object>")), s)
      else (Completion.normal false, s)

/-- What a client or the module can do with a scope object: call a declaring
function, evaluate `__scope__.key`, run `__scope__.key = w`, evaluate
`delete __scope__.key`, run the loop. -/
inductive Op where
  | declaring (frozen : Bool) (key : String) (rest : List Value)
  | reading (key : String)
  | writing (strict : Bool) (key : String) (w : Value)
  | deleting (strict : Bool) (key : String)
  | looping (names : List String)
deriving DecidableEq, Repr

/-- The state an operation leaves, whether it completes normally or throws. -/
def Op.apply (s : State) : Op → State
  | Op.declaring frozen key rest => (declare frozen s key rest).2
  | Op.reading key => (read s key).2
  | Op.writing strict key w => (write strict s key w).2
  | Op.deleting strict key => (deleteProperty strict s key).2
  | Op.looping names => (predeclare names s).2

/-- The identifier an operation is about; the loop is about none in particular. -/
def Op.target : Op → Option String
  | Op.declaring _ key _ => some key
  | Op.reading key => some key
  | Op.writing _ key _ => some key
  | Op.deleting _ key => some key
  | Op.looping _ => none

/-- The state after a finite sequence of operations. -/
def run (s : State) (ops : List Op) : State :=
  ops.foldl Op.apply s

/-- The accessor that `__let__` (`frozen = false`) or `__const__` installs in the
activation `env`. -/
def binding (frozen : Bool) (env : Nat) : Property :=
  if frozen then
    Property.accessor (some (Fn.constGet env)) (some (Fn.constSet env)) false false
  else Property.accessor (some (Fn.letGet env)) (some (Fn.letSet env)) false false

/-- The shapes an own property of the scope object can have: a data property
made by an assignment, the accessor of the loop, or the accessor of a declaring
function whose activation is among the first `n`. -/
def Shaped (n : Nat) (p : Property) : Prop :=
  (∃ v w e c, p = Property.data v w e c) ∨
  (∃ i, p = Property.accessor (some (Fn.deadZoneGet i)) none false true) ∨
  (∃ frozen env, p = binding frozen env ∧ env < n)

/-- What holds of every state the operations reach from `initial`: each own
property has one of the three shapes, and no activation serves two names. -/
structure Inv (s : State) : Prop where
  shaped : ∀ k p, getOwnProperty s.scope k = some p → Shaped s.cells.length p
  distinct : ∀ k1 k2 f1 f2 env, Declared s k1 f1 env → Declared s k2 f2 env → k1 = k2

/-- The two objects of the function expression that closes each file: the own
properties of its local `__scope__`, made by `Object.create(__globalScope__)`,
and the state of the outer scope object, which is its prototype. -/
structure Nested where
  own : PropertyTable
  outer : State
deriving DecidableEq, Repr

/-- The statement `var __scope__ = Object.create(__globalScope__)`. -/
def objectCreate (globalScope : State) : Nested :=
  { own := [], outer := globalScope }

/-- The function expression that closes each file, called with the module-level
`__scope__` as `__globalScope__`: it makes the nested object, keeps it in its
local variable and returns. The first component is that local object, which
nothing refers to once the call has returned; the second is the state of the
module-level scope object, which the call does not touch and on which
`__let__` and `__const__` go on working. -/
def closingFunction (s : State) : Nested × State :=
  (objectCreate s, s)

/-! ## Own-property lemmas -/

theorem getOwnProperty_append_of_none (t : PropertyTable) (key : String) (p : Property)
    (h : getOwnProperty t key = none) :
    getOwnProperty (t ++ [(key, p)]) key = some p := by
  unfold getOwnProperty at *
  induction t with
  | nil => simp [List.lookup]
  | cons kp t ih =>
      obtain ⟨k, q⟩ := kp
      by_cases hk : key = k
      · subst hk; simp [List.lookup] at h
      · have hb : (key == k) = false := by simpa using hk
        simp only [List.cons_append, List.lookup, hb] at h ⊢
        exact ih h

theorem getOwnProperty_append_of_some (t l : PropertyTable) (key : String) (p : Property)
    (h : getOwnProperty t key = some p) :
    getOwnProperty (t ++ l) key = some p := by
  unfold getOwnProperty at *
  induction t with
  | nil => simp [List.lookup] at h
  | cons kp t ih =>
      obtain ⟨k, q⟩ := kp
      by_cases hk : key = k
      · subst hk; simpa [List.lookup] using h
      · have hb : (key == k) = false := by simpa using hk
        simp only [List.cons_append, List.lookup, hb] at h ⊢
        exact ih h

theorem getOwnProperty_map_replace (t : PropertyTable) (key : String) (p q : Property)
    (h : getOwnProperty t key = some q) :
    getOwnProperty (t.map (fun kp => if kp.1 = key then (key, p) else kp)) key = some p := by
  unfold getOwnProperty at *
  induction t with
  | nil => simp [List.lookup] at h
  | cons kp t ih =>
      obtain ⟨k, r⟩ := kp
      by_cases hk : key = k
      · subst hk
        show List.lookup key ((if key = key then (key, p) else (key, r)) :: _) = some p
        rw [if_pos rfl]
        simp [List.lookup]
      · have hb : (key == k) = false := by simpa using hk
        have hk2 : ¬ k = key := fun e => hk e.symm
        show List.lookup key ((if k = key then (key, p) else (k, r)) :: _) = some p
        rw [if_neg hk2]
        simp only [List.lookup, hb] at h ⊢
        exact ih h

theorem getOwnProperty_setOwnProperty (t : PropertyTable) (key : String) (p : Property) :
    getOwnProperty (setOwnProperty t key p) key = some p := by
  unfold setOwnProperty
  cases h : getOwnProperty t key with
  | none => exact getOwnProperty_append_of_none t key p h
  | some q => exact getOwnProperty_map_replace t key p q h

theorem mem_of_getOwnProperty (t : PropertyTable) (key : String) (p : Property)
    (h : getOwnProperty t key = some p) : (key, p) ∈ t := by
  unfold getOwnProperty at h
  induction t with
  | nil => simp [List.lookup] at h
  | cons kp t ih =>
      obtain ⟨k, r⟩ := kp
      by_cases hk : key = k
      · subst hk
        simp [List.lookup] at h
        simp [h]
      · have hb : (key == k) = false := by simpa using hk
        simp only [List.lookup, hb] at h
        exact List.mem_cons_of_mem _ (ih h)

/-! ## `Object.defineProperty` lemmas -/

theorem defineOwnProperty_of_none (t : PropertyTable) (key : String) (d : Descriptor)
    (h : getOwnProperty t key = none) :
    defineOwnProperty t key d =
      some (t ++ [(key, Property.accessor (some d.get) d.set d.enumerable d.configurable)]) := by
  simp [defineOwnProperty, h]

/-- An accepted definition with `get` and `set` written out leaves exactly that
accessor under `key`. -/
theorem defineOwnProperty_installs (t t1 : PropertyTable) (key : String) (d : Descriptor)
    (f : Fn) (hset : d.set = some f) (h : defineOwnProperty t key d = some t1) :
    getOwnProperty t1 key =
      some (Property.accessor (some d.get) (some f) d.enumerable d.configurable) := by
  unfold defineOwnProperty at h
  cases hc : getOwnProperty t key with
  | none =>
      rw [hc] at h
      simp only [Option.some.injEq] at h
      subst h
      rw [hset]
      exact getOwnProperty_append_of_none t key _ hc
  | some cur =>
      rw [hc] at h
      cases cur with
      | data v w e c =>
          cases c with
          | false => simp at h
          | true =>
              simp only [if_true, Option.some.injEq] at h
              subst h
              rw [hset]
              exact getOwnProperty_setOwnProperty t key _
      | accessor g st e c =>
          cases c with
          | true =>
              simp only [if_true, Option.some.injEq, hset] at h
              subst h
              exact getOwnProperty_setOwnProperty t key _
          | false =>
              simp only [hset] at h
              by_cases h1 : d.configurable = true
              · simp [h1] at h
              · by_cases h2 : d.enumerable = e
                · by_cases h3 : g = some d.get
                  · by_cases h4 : st = some f
                    · simp [h1, h2, h3, h4] at h
                      subst h
                      have h1f : d.configurable = false := by simpa using h1
                      rw [hc, h3, h4, h2, h1f]
                    · simp [h1, h2, h3, h4] at h
                  · simp [h1, h2, h3] at h
                · simp [h1, h2] at h

/-! ## What the declaring functions establish, and what reads and writes do with it -/

theorem objectDefineProperty_normal (s s1 : State) (key : String) (d : Descriptor) (f : Fn)
    (hset : d.set = some f) (h : objectDefineProperty s key d = (Completion.normal (), s1)) :
    s1.cells = s.cells ∧ s1.proto = s.proto ∧ s1.property = s.property ∧
    getOwnProperty s1.scope key =
      some (Property.accessor (some d.get) (some f) d.enumerable d.configurable) := by
  unfold objectDefineProperty at h
  cases hd : defineOwnProperty s.scope key d with
  | none => rw [hd] at h; simp at h
  | some t =>
      rw [hd] at h
      simp only [Prod.mk.injEq, true_and] at h
      subst h
      exact ⟨rfl, rfl, rfl, defineOwnProperty_installs s.scope t key d f hset hd⟩

theorem const_normal (s s1 : State) (x : String) (args : List Value)
    (h : __const__ s x args = (Completion.normal (), s1)) :
    args ≠ [] ∧ s1.cells = s.cells ++ [args.headD Value.undefined] ∧
    s1.proto = s.proto ∧ s1.property = s.property ∧ Declared s1 x true s.cells.length := by
  unfold __const__ at h
  by_cases ha : args.length + 1 = 1
  · rw [if_pos ha] at h; simp at h
  · rw [if_neg ha] at h
    obtain ⟨h1, h2, h3, h4⟩ := objectDefineProperty_normal _ s1 x _ _ rfl h
    refine ⟨?_, h1, h2, h3, ?_⟩
    · intro e; subst e; simp at ha
    · simpa [Declared] using h4

theorem let_normal (s s1 : State) (x : String) (args : List Value)
    (h : __let__ s x args = (Completion.normal (), s1)) :
    s1.cells = s.cells ++ [args.headD Value.undefined] ∧
    s1.proto = s.proto ∧ s1.property = s.property ∧ Declared s1 x false s.cells.length := by
  unfold __let__ at h
  obtain ⟨h1, h2, h3, h4⟩ := objectDefineProperty_normal _ s1 x _ _ rfl h
  exact ⟨h1, h2, h3, by simpa [Declared] using h4⟩

theorem const_of_none (s : State) (x : String) (v : Value) (rest : List Value)
    (h : getOwnProperty s.scope x = none) :
    ∃ s1, __const__ s x (v :: rest) = (Completion.normal (), s1) := by
  simp [__const__, objectDefineProperty, defineOwnProperty, h]

theorem let_of_none (s : State) (x : String) (args : List Value)
    (h : getOwnProperty s.scope x = none) :
    ∃ s1, __let__ s x args = (Completion.normal (), s1) := by
  simp [__let__, objectDefineProperty, defineOwnProperty, h]

theorem read_declared (s : State) (x : String) (frozen : Bool) (env : Nat)
    (h : Declared s x frozen env) :
    read s x = (Completion.normal (s.cells.getD env Value.undefined), s) := by
  unfold Declared at h
  cases frozen <;> simp [read, h, call]

theorem write_frozen (strict : Bool) (s : State) (x : String) (env : Nat) (w : Value)
    (h : Declared s x true env) :
    write strict s x w =
      (Completion.throw (JSError.TypeError "Assignment to constant variable"), s) := by
  unfold Declared at h
  simp [write, h, call]

theorem write_mutable (strict : Bool) (s : State) (x : String) (env : Nat) (w : Value)
    (h : Declared s x false env) :
    write strict s x w = (Completion.normal (), { s with cells := s.cells.set env w }) := by
  unfold Declared at h
  simp [write, h, call]

/-- Writing a run of values to a binding of `__let__`: every assignment completes,
and the binding then reads as the last value written. -/
theorem writeAll_mutable (strict : Bool) (x : String) (env : Nat) (vs : List Value) :
    ∀ (s : State), Declared s x false env → env < s.cells.length →
      (writeAll strict s x vs).1 = vs.map (fun _ => Completion.normal ()) ∧
      Declared (writeAll strict s x vs).2 x false env ∧
      read (writeAll strict s x vs).2 x =
        (Completion.normal (vs.getLastD (s.cells.getD env Value.undefined)),
          (writeAll strict s x vs).2) := by
  induction vs with
  | nil =>
      intro s hd _
      exact ⟨rfl, hd, read_declared s x false env hd⟩
  | cons w ws ih =>
      intro s hd hlt
      have hw := write_mutable strict s x env w hd
      have hd1 : Declared { s with cells := s.cells.set env w } x false env := hd
      have hlt1 : env < ({ s with cells := s.cells.set env w } : State).cells.length := by
        simpa using hlt
      obtain ⟨i1, i2, i3⟩ := ih _ hd1 hlt1
      have hget : ({ s with cells := s.cells.set env w } : State).cells.getD env
          Value.undefined = w := by
        simp [List.getD, hlt]
      rw [hget] at i3
      simp only [writeAll, hw, List.map_cons, List.getLastD_cons]
      exact ⟨by rw [i1], i2, i3⟩

/-- Writing a run of values to a binding of `__const__`: every assignment throws
and the state stays as it was. -/
theorem writeAll_frozen (strict : Bool) (s : State) (x : String) (env : Nat)
    (hd : Declared s x true env) (ws : List Value) :
    writeAll strict s x ws =
      (ws.map (fun _ =>
        Completion.throw (JSError.TypeError "Assignment to constant variable")), s) := by
  induction ws with
  | nil => rfl
  | cons w ws ih =>
      simp only [writeAll, write_frozen strict s x env w hd, ih, List.map_cons]

/-- With no own property `x`, a `__const__` call that supplies a value installs a
binding that reads as that value. -/
theorem const_then_read (s : State) (x : String) (v : Value) (rest : List Value)
    (h : getOwnProperty s.scope x = none) :
    ∃ s1, __const__ s x (v :: rest) = (Completion.normal (), s1) ∧
      read s1 x = (Completion.normal v, s1) := by
  obtain ⟨s1, h1⟩ := const_of_none s x v rest h
  obtain ⟨_, hc, _, _, hd⟩ := const_normal s s1 x _ h1
  exact ⟨s1, h1, by rw [read_declared s1 x true _ hd, hc]; simp [List.getD]⟩

/-! ## The loop over `__variable__` -/

theorem call_frame (f : Fn) (args : List Value) (s : State) :
    (call f args s).2.scope = s.scope ∧ (call f args s).2.property = s.property := by
  cases f <;> exact ⟨rfl, rfl⟩

theorem read_frame (s : State) (key : String) :
    (read s key).2.scope = s.scope ∧ (read s key).2.property = s.property := by
  unfold read
  cases getOwnProperty s.scope key with
  | none => cases s.proto <;> exact ⟨rfl, rfl⟩
  | some p =>
      cases p with
      | data v w e c => exact ⟨rfl, rfl⟩
      | accessor g st e c =>
          cases g with
          | none => exact ⟨rfl, rfl⟩
          | some g => exact call_frame g [] s

/-- A `hasOwnProperty` call that answers has consulted the own properties and has
left them, and `property`, as they were. -/
theorem hasOwnPropertyCall_normal (s s1 : State) (key : String) (b : Bool)
    (h : hasOwnPropertyCall s key = (Completion.normal b, s1)) :
    s1.scope = s.scope ∧ s1.property = s.property ∧ b = (getOwnProperty s.scope key).isSome := by
  unfold hasOwnPropertyCall at h
  have hf := read_frame s "hasOwnProperty"
  rcases hr : read s "hasOwnProperty" with ⟨c, s2⟩
  rw [hr] at h hf
  cases c with
  | throw err => simp at h
  | outside => simp at h
  | normal f =>
      cases f with
      | intrinsic n =>
          by_cases hn : n = "Object.prototype.hasOwnProperty"
          · simp only [hn, if_true, Prod.mk.injEq, Completion.normal.injEq] at h
            obtain ⟨hb, hs⟩ := h
            subst hs
            exact ⟨hf.1, hf.2, by rw [← hb, hf.1]⟩
          · simp [hn] at h
      | undefined => simp at h
      | null => simp at h
      | boolean _ => simp at h
      | number _ => simp at h
      | string _ => simp at h
      | object _ => simp at h

theorem lastAssigned_cons (p : Option String) (y : String) (ys : List String) :
    lastAssigned p (y :: ys) = some (ys.getLastD y) := by
  induction ys generalizing y p with
  | nil => rfl
  | cons z zs ih =>
      rw [List.getLastD_cons]
      exact ih (some y) z

/-- A loop that runs to its end has kept the properties it found, has put every
name of the list in the dead zone, and has left the last name in `property`. -/
theorem predeclareFrom_normal (names : List String) :
    ∀ (i : Nat) (s0 s : State), predeclareFrom i names s0 = (Completion.normal (), s) →
      (∀ k p, getOwnProperty s0.scope k = some p → getOwnProperty s.scope k = some p) ∧
      (∀ x ∈ names, DeadZone s x) ∧
      s.property = lastAssigned s0.property names := by
  induction names with
  | nil =>
      intro i s0 s h
      simp only [predeclareFrom, Prod.mk.injEq, true_and] at h
      subst h
      exact ⟨fun _ _ hp => hp, by simp, rfl⟩
  | cons x rest ih =>
      intro i s0 s h
      unfold predeclareFrom at h
      rcases hc : hasOwnPropertyCall { s0 with property := some x } x with ⟨c, s1⟩
      rw [hc] at h
      cases c with
      | throw err => simp at h
      | outside => simp at h
      | normal b =>
          obtain ⟨hs, hp, hb⟩ := hasOwnPropertyCall_normal _ s1 x b hc
          cases b with
          | true => simp at h
          | false =>
              have hx : propertyText s1.property = x := by rw [hp]; rfl
              have hnone : getOwnProperty s1.scope x = none := by
                rw [hs]
                cases hg : getOwnProperty s0.scope x with
                | none => rfl
                | some q =>
                    have : getOwnProperty
                        ({ s0 with property := some x } : State).scope x = some q := hg
                    rw [this] at hb
                    simp at hb
              simp only [hx, objectDefineProperty,
                defineOwnProperty_of_none s1.scope x _ hnone] at h
              obtain ⟨k1, k2, k3⟩ := ih (i + 1) _ s h
              refine ⟨?_, ?_, ?_⟩
              · intro k p hk
                apply k1
                apply getOwnProperty_append_of_some
                rw [hs]
                exact hk
              · intro y hy
                rcases List.mem_cons.mp hy with hy | hy
                · subst hy
                  exact ⟨i, k1 _ _ (getOwnProperty_append_of_none s1.scope y _ hnone)⟩
                · exact k2 y hy
              · rw [k3]
                show lastAssigned s1.property rest = lastAssigned (some x) rest
                rw [hp]

theorem read_deadZone (s : State) (x : String) (h : DeadZone s x) :
    read s x = (Completion.throw (JSError.ReferenceError
      ("Cannot access " ++ propertyText s.property ++ " before initialization")), s) := by
  obtain ⟨i, hi⟩ := h
  simp [read, hi, call]

theorem write_deadZone (strict : Bool) (s : State) (x : String) (w : Value)
    (h : DeadZone s x) :
    write strict s x w =
      (if strict then
        Completion.throw (JSError.TypeError
          ("Cannot set property " ++ x ++ " of #<Object> which has only a getter"))
      else Completion.normal (), s) := by
  obtain ⟨i, hi⟩ := h
  cases strict <;> simp [write, hi]

/-! ## Well-formedness is kept by every operation -/

theorem allocated_mono (f : Fn) (n m : Nat) (hnm : n ≤ m) (h : f.allocated n = true) :
    f.allocated m = true := by
  cases f <;> simp [Fn.allocated] at h ⊢ <;> omega

theorem wellFormed_initial : WellFormed initial := by
  intro kp hkp
  simp [initial] at hkp

theorem mem_setOwnProperty (t : PropertyTable) (key : String) (p : Property)
    (kp : String × Property) (h : kp ∈ setOwnProperty t key p) : kp ∈ t ∨ kp = (key, p) := by
  unfold setOwnProperty at h
  cases hg : getOwnProperty t key with
  | none =>
      rw [hg] at h
      rcases List.mem_append.mp h with h | h
      · exact Or.inl h
      · exact Or.inr (by simpa using h)
  | some q =>
      rw [hg] at h
      obtain ⟨a, ha, he⟩ := List.mem_map.mp h
      by_cases hk : a.1 = key
      · rw [if_pos hk] at he
        exact Or.inr he.symm
      · rw [if_neg hk] at he
        exact Or.inl (he ▸ ha)

/-- Every function object found after an accepted definition is one of the
descriptor or was in the table before. -/
theorem defineOwnProperty_functions (t t1 : PropertyTable) (key : String) (d : Descriptor)
    (h : defineOwnProperty t key d = some t1) :
    ∀ kp ∈ t1, ∀ f ∈ kp.2.functions,
      f = d.get ∨ d.set = some f ∨ ∃ kp0 ∈ t, f ∈ kp0.2.functions := by
  intro kp hkp f hf
  unfold defineOwnProperty at h
  cases hc : getOwnProperty t key with
  | none =>
      rw [hc] at h
      simp only [Option.some.injEq] at h
      subst h
      rcases List.mem_append.mp hkp with hm | hm
      · exact Or.inr (Or.inr ⟨kp, hm, hf⟩)
      · have : kp = (key, Property.accessor (some d.get) d.set d.enumerable d.configurable) := by
          simpa using hm
        subst this
        simp only [Property.functions, List.mem_append, Option.mem_toList,
          Option.mem_def, Option.some.injEq] at hf
        rcases hf with hf | hf
        · exact Or.inl hf.symm
        · exact Or.inr (Or.inl hf)
  | some cur =>
      rw [hc] at h
      have hcur := mem_of_getOwnProperty t key cur hc
      cases cur with
      | data v w e c =>
          cases c with
          | false => simp at h
          | true =>
              simp only [if_true, Option.some.injEq] at h
              subst h
              rcases mem_setOwnProperty t key _ kp hkp with hm | hm
              · exact Or.inr (Or.inr ⟨kp, hm, hf⟩)
              · subst hm
                simp only [Property.functions, List.mem_append, Option.mem_toList,
                  Option.mem_def, Option.some.injEq] at hf
                rcases hf with hf | hf
                · exact Or.inl hf.symm
                · exact Or.inr (Or.inl hf)
      | accessor g st e c =>
          cases c with
          | true =>
              simp only [if_true, Option.some.injEq] at h
              subst h
              rcases mem_setOwnProperty t key _ kp hkp with hm | hm
              · exact Or.inr (Or.inr ⟨kp, hm, hf⟩)
              · subst hm
                simp only [Property.functions, List.mem_append, Option.mem_toList,
                  Option.mem_def, Option.some.injEq] at hf
                rcases hf with hf | hf
                · exact Or.inl hf.symm
                · cases hds : d.set with
                  | some f1 =>
                      rw [hds] at hf
                      exact Or.inr (Or.inl (by simpa using hf))
                  | none =>
                      rw [hds] at hf
                      refine Or.inr (Or.inr ⟨_, hcur, ?_⟩)
                      simp only [Property.functions, List.mem_append, Option.mem_toList,
                        Option.mem_def]
                      exact Or.inr hf
          | false =>
              have ht : t1 = t := by
                by_cases h1 : d.configurable = true
                · simp [h1] at h
                · by_cases h2 : d.enumerable = e
                  · by_cases h3 : g = some d.get
                    · cases hds : d.set with
                      | none => simpa [h1, h2, h3, hds] using h.symm
                      | some f1 =>
                          by_cases h4 : st = some f1
                          · simpa [h1, h2, h3, hds, h4] using h.symm
                          · simp [h1, h2, h3, hds, h4] at h
                    · simp [h1, h2, h3] at h
                  · simp [h1, h2] at h
              subst ht
              exact Or.inr (Or.inr ⟨kp, hkp, hf⟩)

theorem objectDefineProperty_wellFormed (s : State) (key : String) (d : Descriptor)
    (hwf : WellFormed s) (hg : d.get.allocated s.cells.length = true)
    (hs : ∀ f, d.set = some f → f.allocated s.cells.length = true) :
    WellFormed (objectDefineProperty s key d).2 := by
  unfold objectDefineProperty
  cases hd : defineOwnProperty s.scope key d with
  | none => exact hwf
  | some t =>
      intro kp hkp f hf
      rcases defineOwnProperty_functions s.scope t key d hd kp hkp f hf with h | h | ⟨kp0, h0, h1⟩
      · subst h; exact hg
      · exact hs f h
      · exact hwf kp0 h0 f h1

theorem wellFormed_grow (s : State) (v : Value) (hwf : WellFormed s) :
    WellFormed { s with cells := s.cells ++ [v] } := by
  intro kp hkp f hf
  exact allocated_mono f s.cells.length _ (by simp) (hwf kp hkp f hf)

theorem let_wellFormed (s : State) (x : String) (args : List Value) (hwf : WellFormed s) :
    WellFormed (__let__ s x args).2 := by
  unfold __let__
  apply objectDefineProperty_wellFormed _ _ _ (wellFormed_grow s _ hwf)
  · simp [Fn.allocated]
  · intro f hf
    simp only [Option.some.injEq] at hf
    subst hf
    simp [Fn.allocated]

theorem const_wellFormed (s : State) (x : String) (args : List Value) (hwf : WellFormed s) :
    WellFormed (__const__ s x args).2 := by
  unfold __const__
  by_cases ha : args.length + 1 = 1
  · rw [if_pos ha]; exact hwf
  · rw [if_neg ha]
    apply objectDefineProperty_wellFormed _ _ _ (wellFormed_grow s _ hwf)
    · simp [Fn.allocated]
    · intro f hf
      simp only [Option.some.injEq] at hf
      subst hf
      simp [Fn.allocated]

theorem call_wellFormed (f : Fn) (args : List Value) (s : State) (hwf : WellFormed s) :
    WellFormed (call f args s).2 := by
  cases f with
  | letSet env =>
      intro kp hkp g hg
      have := hwf kp hkp g hg
      simpa [call] using this
  | deadZoneGet i => exact hwf
  | letGet env => exact hwf
  | constGet env => exact hwf
  | constSet env => exact hwf

theorem read_wellFormed (s : State) (key : String) (hwf : WellFormed s) :
    WellFormed (read s key).2 := by
  unfold read
  cases getOwnProperty s.scope key with
  | none => cases s.proto <;> exact hwf
  | some p =>
      cases p with
      | data v w e c => exact hwf
      | accessor g st e c =>
          cases g with
          | none => exact hwf
          | some g => exact call_wellFormed g [] s hwf

theorem write_wellFormed (strict : Bool) (s : State) (key : String) (w : Value)
    (hwf : WellFormed s) : WellFormed (write strict s key w).2 := by
  have hdata : ∀ (t : PropertyTable) (q : Property), q.functions = [] →
      (∀ kp ∈ t, kp ∈ s.scope ∨ kp = (key, q)) →
      WellFormed { s with scope := t } := by
    intro t q hq ht kp hkp f hf
    rcases ht kp hkp with h | h
    · exact hwf kp h f hf
    · subst h
      rw [hq] at hf
      simp at hf
  have hcreate : WellFormed (createDataProperty s key w) := by
    apply hdata _ (Property.data w true true true) rfl
    intro kp hkp
    rcases List.mem_append.mp hkp with h | h
    · exact Or.inl h
    · exact Or.inr (by simpa using h)
  unfold write
  cases hg : getOwnProperty s.scope key with
  | none =>
      cases hp : s.proto with
      | null => exact hcreate
      | objectPrototype =>
          by_cases hk : key = "__proto__"
          · simp only [hk, if_true]
            cases w with
            | intrinsic n => by_cases hn : n = "Object.prototype" <;> simp [hn] <;> exact hwf
            | null => exact hwf
            | undefined => exact hwf
            | boolean _ => exact hwf
            | number _ => exact hwf
            | string _ => exact hwf
            | object _ => exact hwf
          · simp only [hk, if_false]
            exact hcreate
  | some p =>
      cases p with
      | data v wr e c =>
          cases wr with
          | true =>
              exact hdata _ (Property.data w true e c) rfl
                (fun kp hkp => mem_setOwnProperty s.scope key _ kp hkp)
          | false => cases strict <;> exact hwf
      | accessor g st e c =>
          cases st with
          | none => cases strict <;> exact hwf
          | some f =>
              have := call_wellFormed f [w] s hwf
              rcases hcall : call f [w] s with ⟨r, s1⟩
              rw [hcall] at this
              cases r <;> simp only [hcall] <;> exact this

theorem predeclareFrom_wellFormed (names : List String) :
    ∀ (i : Nat) (s : State), WellFormed s → WellFormed (predeclareFrom i names s).2 := by
  induction names with
  | nil => intro i s hwf; exact hwf
  | cons x rest ih =>
      intro i s hwf
      unfold predeclareFrom
      have h0 : WellFormed { s with property := some x } := hwf
      have h1 : WellFormed (hasOwnPropertyCall { s with property := some x } x).2 := by
        unfold hasOwnPropertyCall
        have hr := read_wellFormed _ "hasOwnProperty" h0
        rcases hread : read { s with property := some x } "hasOwnProperty" with ⟨r, s1⟩
        rw [hread] at hr
        cases r with
        | throw err => exact hr
        | outside => exact hr
        | normal f =>
            cases f with
            | intrinsic n =>
                by_cases hn : n = "Object.prototype.hasOwnProperty" <;> simp [hn] <;> exact hr
            | undefined => exact hr
            | null => exact hr
            | boolean _ => exact hr
            | number _ => exact hr
            | string _ => exact hr
            | object _ => exact hr
      rcases hc : hasOwnPropertyCall { s with property := some x } x with ⟨c, s1⟩
      rw [hc] at h1
      cases c with
      | throw err => exact h1
      | outside => exact h1
      | normal b =>
          cases b with
          | true => exact h1
          | false =>
              have h2 := objectDefineProperty_wellFormed s1 (propertyText s1.property)
                { configurable := true, enumerable := false,
                  get := Fn.deadZoneGet i, set := none } h1 rfl (by simp)
              rcases hd : objectDefineProperty s1 (propertyText s1.property)
                  { configurable := true, enumerable := false,
                    get := Fn.deadZoneGet i, set := none } with ⟨r, s2⟩
              rw [hd] at h2
              cases r with
              | normal u => simp only [hd]; exact ih (i + 1) s2 h2
              | throw err => simp only [hd]; exact h2
              | outside => simp only [hd]; exact h2

/-! ## The claims -/

/-- C1: in a scope with no own property `x`, `__const__(x, v)` completes normally
and `__scope__.x` then evaluates to exactly `v`. -/
theorem C1_const_declare_then_read (s : State) (x : String) (v : Value) (rest : List Value)
    (h : getOwnProperty s.scope x = none) :
    ∃ s1, __const__ s x (v :: rest) = (Completion.normal (), s1) ∧
      read s1 x = (Completion.normal v, s1) := by
  obtain ⟨s1, h1⟩ := const_of_none s x v rest h
  obtain ⟨_, hc, _, _, hd⟩ := const_normal s s1 x _ h1
  refine ⟨s1, h1, ?_⟩
  rw [read_declared s1 x true _ hd, hc]
  simp [List.getD]

theorem C1_const_declare_then_read_witness :
    getOwnProperty initial.scope "PI" = none ∧
    ∃ s1, __const__ initial "PI" [Value.pi] = (Completion.normal (), s1) ∧
      read s1 "PI" = (Completion.normal Value.pi, s1) :=
  ⟨by decide, C1_const_declare_then_read initial "PI" _ [] (by decide)⟩

/-- C2: after a successful `__const__(x, ...)`, every assignment `__scope__.x = w`,
in strict or sloppy code and for every `w` (the current value included), throws
TypeError "Assignment to constant variable" and changes nothing. -/
theorem C2_const_write_always_fails (s s1 : State) (x : String) (args : List Value)
    (h : __const__ s x args = (Completion.normal (), s1)) (strict : Bool) (w : Value) :
    write strict s1 x w =
      (Completion.throw (JSError.TypeError "Assignment to constant variable"), s1) := by
  obtain ⟨_, _, _, _, hd⟩ := const_normal s s1 x _ h
  exact write_frozen strict s1 x _ w hd

theorem C2_const_write_always_fails_witness :
    __const__ initial "PI" [Value.three] =
        (Completion.normal (), (__const__ initial "PI" [Value.three]).2) ∧
    write true (__const__ initial "PI" [Value.three]).2 "PI" Value.three =
      (Completion.throw (JSError.TypeError "Assignment to constant variable"),
        (__const__ initial "PI" [Value.three]).2) :=
  ⟨by decide, C2_const_write_always_fails initial _ "PI" [Value.three] (by decide) true _⟩

/-- C3: after a successful `__const__(x, v)`, any finite run of assignments to `x`
fails assignment by assignment, leaves the state as it was, and `__scope__.x`
still evaluates to `v`. -/
theorem C3_const_value_survives_failed_writes (s s1 : State) (x : String) (v : Value)
    (rest : List Value) (h : __const__ s x (v :: rest) = (Completion.normal (), s1))
    (strict : Bool) (ws : List Value) :
    writeAll strict s1 x ws =
      (ws.map (fun _ =>
        Completion.throw (JSError.TypeError "Assignment to constant variable")), s1) ∧
    read (writeAll strict s1 x ws).2 x = (Completion.normal v, (writeAll strict s1 x ws).2) := by
  obtain ⟨_, hc, _, _, hd⟩ := const_normal s s1 x _ h
  have hw := writeAll_frozen strict s1 x _ hd ws
  refine ⟨hw, ?_⟩
  rw [hw, read_declared s1 x true _ hd, hc]
  simp [List.getD]

theorem C3_const_value_survives_failed_writes_witness :
    __const__ initial "PI" [Value.pi] =
        (Completion.normal (), (__const__ initial "PI" [Value.pi]).2) ∧
    (writeAll false (__const__ initial "PI" [Value.pi]).2 "PI"
        [Value.three, Value.null] =
      ([Value.three, Value.null].map (fun _ =>
        Completion.throw (JSError.TypeError "Assignment to constant variable")),
        (__const__ initial "PI" [Value.pi]).2) ∧
    read (writeAll false (__const__ initial "PI" [Value.pi]).2 "PI"
        [Value.three, Value.null]).2 "PI" =
      (Completion.normal Value.pi,
        (writeAll false (__const__ initial "PI" [Value.pi]).2 "PI"
          [Value.three, Value.null]).2)) :=
  ⟨by decide, C3_const_value_survives_failed_writes initial _ "PI" _ [] (by decide) false _⟩

/-- C4: after a successful `__let__(x, v0)`, the assignments of `v1, ..., vn` to `x`
all complete normally and `__scope__.x` then evaluates to `vn`; with no
assignment it evaluates to `v0`. -/
theorem C4_let_reads_last_write (s s1 : State) (x : String) (v0 : Value) (rest : List Value)
    (h : __let__ s x (v0 :: rest) = (Completion.normal (), s1))
    (strict : Bool) (vs : List Value) :
    (writeAll strict s1 x vs).1 = vs.map (fun _ => Completion.normal ()) ∧
    read (writeAll strict s1 x vs).2 x =
      (Completion.normal (vs.getLastD v0), (writeAll strict s1 x vs).2) := by
  obtain ⟨hc, _, _, hd⟩ := let_normal s s1 x _ h
  have hlt : s.cells.length < s1.cells.length := by rw [hc]; simp
  obtain ⟨i1, _, i3⟩ := writeAll_mutable strict x _ vs s1 hd hlt
  refine ⟨i1, ?_⟩
  rw [i3, hc]
  simp [List.getD]

theorem C4_let_reads_last_write_witness :
    __let__ initial "count" [Value.zero] =
        (Completion.normal (), (__let__ initial "count" [Value.zero]).2) ∧
    ((writeAll true (__let__ initial "count" [Value.zero]).2 "count"
        [Value.one, Value.string "two"]).1 =
      [Value.one, Value.string "two"].map (fun _ => Completion.normal ()) ∧
    read (writeAll true (__let__ initial "count" [Value.zero]).2 "count"
        [Value.one, Value.string "two"]).2 "count" =
      (Completion.normal ([Value.one, Value.string "two"].getLastD Value.zero),
        (writeAll true (__let__ initial "count" [Value.zero]).2 "count"
          [Value.one, Value.string "two"]).2)) :=
  ⟨by decide, C4_let_reads_last_write initial _ "count" _ [] (by decide) true _⟩

/-- In a well-formed state the activation of a declared binding exists. -/
theorem declared_env_lt (s : State) (x : String) (frozen : Bool) (env : Nat)
    (hwf : WellFormed s) (hd : Declared s x frozen env) : env < s.cells.length := by
  have hm := mem_of_getOwnProperty s.scope x _ hd
  cases frozen with
  | false =>
      have := hwf _ hm (Fn.letGet env) (by simp [Property.functions])
      simpa [Fn.allocated] using this
  | true =>
      have := hwf _ hm (Fn.constGet env) (by simp [Property.functions])
      simpa [Fn.allocated] using this

/-- A declared binding refuses the accessor of any later activation. -/
theorem defineOwnProperty_declared (s : State) (x : String) (frozen : Bool) (env : Nat)
    (hwf : WellFormed s) (hd : Declared s x frozen env) (g : Nat → Fn) (st : Option Fn)
    (hg : g = Fn.letGet ∨ g = Fn.constGet) :
    defineOwnProperty s.scope x
      { configurable := false, enumerable := false, get := g s.cells.length, set := st }
      = none := by
  have hlt := declared_env_lt s x frozen env hwf hd
  have hne : env ≠ s.cells.length := Nat.ne_of_lt hlt
  unfold Declared at hd
  rcases hg with hg | hg <;> subst hg <;> cases frozen <;>
    simp [defineOwnProperty, hd, hne]

/-- In a well-formed state where `x` is a binding of `__let__` or `__const__`, a
further `__let__(x, v)` or `__const__(x, v)` throws the TypeError of
`Object.defineProperty` ("Cannot redefine property: x"); the own properties of
the scope object are untouched, the binding keeps its kind and `__scope__.x`
evaluates to the value it had. -/
theorem redeclaration_rejected (s : State) (x : String) (frozen : Bool) (env : Nat)
    (hwf : WellFormed s) (hd : Declared s x frozen env) (v : Value) (rest : List Value) :
    ((__let__ s x (v :: rest)).1 =
        Completion.throw (JSError.TypeError ("Cannot redefine property: " ++ x)) ∧
      (__let__ s x (v :: rest)).2.scope = s.scope ∧
      Declared (__let__ s x (v :: rest)).2 x frozen env ∧
      (read (__let__ s x (v :: rest)).2 x).1 = (read s x).1) ∧
    ((__const__ s x (v :: rest)).1 =
        Completion.throw (JSError.TypeError ("Cannot redefine property: " ++ x)) ∧
      (__const__ s x (v :: rest)).2.scope = s.scope ∧
      Declared (__const__ s x (v :: rest)).2 x frozen env ∧
      (read (__const__ s x (v :: rest)).2 x).1 = (read s x).1) := by
  have hlt := declared_env_lt s x frozen env hwf hd
  have hl := defineOwnProperty_declared s x frozen env hwf hd Fn.letGet
    (some (Fn.letSet s.cells.length)) (Or.inl rfl)
  have hc := defineOwnProperty_declared s x frozen env hwf hd Fn.constGet
    (some (Fn.constSet s.cells.length)) (Or.inr rfl)
  have hget : (s.cells ++ [v]).getD env Value.undefined = s.cells.getD env Value.undefined := by
    simp [List.getD, List.getElem?_append_left hlt]
  have hlet : __let__ s x (v :: rest) =
      (Completion.throw (JSError.TypeError ("Cannot redefine property: " ++ x)),
        { s with cells := s.cells ++ [v] }) := by
    simp [__let__, objectDefineProperty, hl]
  have hconst : __const__ s x (v :: rest) =
      (Completion.throw (JSError.TypeError ("Cannot redefine property: " ++ x)),
        { s with cells := s.cells ++ [v] }) := by
    simp [__const__, objectDefineProperty, hc]
  have hd1 : Declared { s with cells := s.cells ++ [v] } x frozen env := hd
  have hr : (read { s with cells := s.cells ++ [v] } x).1 = (read s x).1 := by
    rw [read_declared _ x frozen env hd1, read_declared s x frozen env hd]
    simp only [hget]
  rw [hlet, hconst]
  exact ⟨⟨rfl, rfl, hd1, hr⟩, ⟨rfl, rfl, hd1, hr⟩⟩

/-- C5 (the code at the failing input): after `__let__("y", 1)`, the call
`__const__("y", 2)` throws the TypeError of `Object.defineProperty`, "Cannot redefine
property: y", and so does a second `__let__("y", 2)`; neither throws the SyntaxError
"Identifier y has already been declared". That SyntaxError is what the loop
throws for the same condition, a name that is already an own property or that
occurs twice in its list, but the declaring functions never reach the loop. The
binding itself is kept: `__scope__.y` still evaluates to `1`. -/
theorem C5_redeclaration_error_is_not_duplicate_declaration :
    (__const__ (__let__ initial "y" [Value.one]).2 "y" [Value.two]).1 =
      Completion.throw (JSError.TypeError "Cannot redefine property: y") ∧
    (__let__ (__let__ initial "y" [Value.one]).2 "y" [Value.two]).1 =
      Completion.throw (JSError.TypeError "Cannot redefine property: y") ∧
    (__const__ (__let__ initial "y" [Value.one]).2 "y" [Value.two]).1 ≠
      Completion.throw (JSError.SyntaxError "Identifier y has already been declared") ∧
    (__let__ (__let__ initial "y" [Value.one]).2 "y" [Value.two]).1 ≠
      Completion.throw (JSError.SyntaxError "Identifier y has already been declared") ∧
    (predeclare ["y"] (__let__ initial "y" [Value.one]).2).1 =
      Completion.throw (JSError.SyntaxError "Identifier y has already been declared") ∧
    (predeclare ["y", "y"] initial).1 =
      Completion.throw (JSError.SyntaxError "Identifier y has already been declared") ∧
    (read (__const__ (__let__ initial "y" [Value.one]).2 "y" [Value.two]).2 "y").1 =
      Completion.normal Value.one := by
  decide

/-- C6: with no own property `x`, the call `__const__(x)` throws SyntaxError "Missing
initializer in const declaration" and leaves the state as it was; a following
`__const__(x, v)` completes normally and `__scope__.x` evaluates to `v`. -/
theorem C6_const_missing_initializer (s : State) (x : String)
    (h : getOwnProperty s.scope x = none) (v : Value) :
    __const__ s x [] =
      (Completion.throw (JSError.SyntaxError "Missing initializer in const declaration"), s) ∧
    getOwnProperty (__const__ s x []).2.scope x = none ∧
    ∃ s1, __const__ (__const__ s x []).2 x [v] = (Completion.normal (), s1) ∧
      read s1 x = (Completion.normal v, s1) := by
  have h0 : __const__ s x [] =
      (Completion.throw (JSError.SyntaxError "Missing initializer in const declaration"), s) := by
    simp [__const__]
  rw [h0]
  exact ⟨rfl, h, const_then_read s x v [] h⟩

theorem C6_const_missing_initializer_witness :
    getOwnProperty initial.scope "X" = none ∧
    (__const__ initial "X" [] =
      (Completion.throw (JSError.SyntaxError "Missing initializer in const declaration"),
        initial) ∧
    getOwnProperty (__const__ initial "X" []).2.scope "X" = none ∧
    ∃ s1, __const__ (__const__ initial "X" []).2 "X" [Value.boolean true] =
        (Completion.normal (), s1) ∧
      read s1 "X" = (Completion.normal (Value.boolean true), s1)) :=
  ⟨by decide, C6_const_missing_initializer initial "X" (by decide) (Value.boolean true)⟩

/-- C7: `__const__(x, ...rest)` throws the missing-initializer SyntaxError exactly
when no value argument is supplied (`rest` is empty), whatever the state; and with
no own property `x`, `__const__(x, undefined)` completes normally and `__scope__.x`
evaluates to `undefined`. -/
theorem C7_const_initializer_check_is_arity (s : State) (x : String) :
    (∀ rest : List Value,
      (__const__ s x rest).1 =
          Completion.throw (JSError.SyntaxError "Missing initializer in const declaration")
        ↔ rest = []) ∧
    (getOwnProperty s.scope x = none →
      ∃ s1, __const__ s x [Value.undefined] = (Completion.normal (), s1) ∧
        read s1 x = (Completion.normal Value.undefined, s1)) := by
  constructor
  · intro rest
    constructor
    · intro h
      cases rest with
      | nil => rfl
      | cons v tl =>
          exfalso
          simp only [__const__, objectDefineProperty] at h
          rw [if_neg (by simp)] at h
          cases hd : defineOwnProperty s.scope x
              { enumerable := false, configurable := false,
                get := Fn.constGet s.cells.length,
                set := some (Fn.constSet s.cells.length) } with
          | none => simp [hd] at h
          | some t => simp [hd] at h
    · intro h
      subst h
      simp [__const__]
  · intro h
    exact const_then_read s x Value.undefined [] h

theorem C7_const_initializer_check_is_arity_witness :
    ((__const__ initial "x" []).1 =
        Completion.throw (JSError.SyntaxError "Missing initializer in const declaration")
      ↔ ([] : List Value) = []) ∧
    ((__const__ initial "x" [Value.undefined]).1 =
        Completion.throw (JSError.SyntaxError "Missing initializer in const declaration")
      ↔ [Value.undefined] = []) ∧
    ∃ s1, __const__ initial "x" [Value.undefined] = (Completion.normal (), s1) ∧
      read s1 "x" = (Completion.normal Value.undefined, s1) :=
  ⟨(C7_const_initializer_check_is_arity initial "x").1 [],
    (C7_const_initializer_check_is_arity initial "x").1 [Value.undefined],
    (C7_const_initializer_check_is_arity initial "x").2 (by decide)⟩

/-- C8: with no own property `x`, the call `__let__(x)` completes normally, `x` is an
initialized binding of `__let__`, `__scope__.x` evaluates to `undefined`, and after
an assignment of `v` it evaluates to `v`. -/
theorem C8_let_without_initializer (s : State) (x : String)
    (h : getOwnProperty s.scope x = none) :
    ∃ s1, __let__ s x [] = (Completion.normal (), s1) ∧
      Declared s1 x false s.cells.length ∧
      read s1 x = (Completion.normal Value.undefined, s1) ∧
      ∀ (strict : Bool) (v : Value), ∃ s2,
        write strict s1 x v = (Completion.normal (), s2) ∧
        read s2 x = (Completion.normal v, s2) := by
  obtain ⟨s1, h1⟩ := let_of_none s x [] h
  obtain ⟨hc, _, _, hd⟩ := let_normal s s1 x _ h1
  refine ⟨s1, h1, hd, ?_, ?_⟩
  · rw [read_declared s1 x false _ hd, hc]
    simp [List.getD]
  · intro strict v
    refine ⟨_, write_mutable strict s1 x _ v hd, ?_⟩
    have hd2 : Declared { s1 with cells := s1.cells.set s.cells.length v } x false
        s.cells.length := hd
    rw [read_declared _ x false _ hd2]
    simp [List.getD, hc]

theorem C8_let_without_initializer_witness :
    getOwnProperty initial.scope "n" = none ∧
    ∃ s1, __let__ initial "n" [] = (Completion.normal (), s1) ∧
      Declared s1 "n" false initial.cells.length ∧
      read s1 "n" = (Completion.normal Value.undefined, s1) ∧
      ∀ (strict : Bool) (v : Value), ∃ s2,
        write strict s1 "n" v = (Completion.normal (), s2) ∧
        read s2 "n" = (Completion.normal v, s2) :=
  ⟨by decide, C8_let_without_initializer initial "n" (by decide)⟩

/-- C9: when the loop has run to its end over `__variable__`, from any state, every
`x` of the list is in the dead zone and `__scope__.x` throws ReferenceError "Cannot
access p before initialization", where `p` is what `property` holds by then, the
last name of the list. -/
theorem C9_dead_zone_read_fails (names : List String) (s0 s : State)
    (h : predeclare names s0 = (Completion.normal (), s)) (x : String) (hx : x ∈ names) :
    read s x = (Completion.throw (JSError.ReferenceError
      ("Cannot access " ++ names.getLastD x ++ " before initialization")), s) := by
  obtain ⟨_, hdz, hp⟩ := predeclareFrom_normal names 0 s0 s h
  rw [read_deadZone s x (hdz x hx), hp]
  cases names with
  | nil => simp at hx
  | cons y ys =>
      rw [lastAssigned_cons, List.getLastD_cons]
      rfl

theorem C9_dead_zone_read_fails_witness :
    predeclare ["a", "b"] initial =
        (Completion.normal (), (predeclare ["a", "b"] initial).2) ∧
    "b" ∈ ["a", "b"] ∧
    read (predeclare ["a", "b"] initial).2 "b" =
      (Completion.throw (JSError.ReferenceError
        ("Cannot access " ++ ["a", "b"].getLastD "b" ++ " before initialization")),
        (predeclare ["a", "b"] initial).2) :=
  ⟨by decide, by decide,
    C9_dead_zone_read_fails ["a", "b"] initial _ (by decide) "b" (by decide)⟩

/-- C10 (the code at the failing input): with `__variable__ = ["x"]` the loop puts `x`
in the dead zone, where a read throws the ReferenceError; the assignment
`__scope__.x = 1` completes normally in sloppy code and changes nothing, and in
strict code throws a TypeError for a property that has only a getter. No
ReferenceError is thrown by the write. -/
theorem C10_dead_zone_write_is_not_guarded :
    predeclare ["x"] initial =
      (Completion.normal (),
        { scope := [("x", Property.accessor (some (Fn.deadZoneGet 0)) none false true)],
          proto := Proto.objectPrototype, cells := [], property := some "x" }) ∧
    (read (predeclare ["x"] initial).2 "x").1 =
      Completion.throw (JSError.ReferenceError "Cannot access x before initialization") ∧
    write false (predeclare ["x"] initial).2 "x" Value.one =
      (Completion.normal (), (predeclare ["x"] initial).2) ∧
    write true (predeclare ["x"] initial).2 "x" Value.one =
      (Completion.throw (JSError.TypeError
        "Cannot set property x of #<Object> which has only a getter"),
        (predeclare ["x"] initial).2) := by
  decide

/-! ## Initialization out of the dead zone -/

theorem declare_of_deadZone (frozen : Bool) (s : State) (x : String) (v : Value)
    (rest : List Value) (h : DeadZone s x) :
    ∃ s1, declare frozen s x (v :: rest) = (Completion.normal (), s1) ∧
      Declared s1 x frozen s.cells.length ∧ s1.cells = s.cells ++ [v] := by
  obtain ⟨i, hi⟩ := h
  cases frozen with
  | false =>
      have h0 : ∃ s1, __let__ s x (v :: rest) = (Completion.normal (), s1) := by
        simp [__let__, objectDefineProperty, defineOwnProperty, hi]
      obtain ⟨s1, h1⟩ := h0
      obtain ⟨hc, _, _, hd⟩ := let_normal s s1 x _ h1
      exact ⟨s1, h1, hd, hc⟩
  | true =>
      have h0 : ∃ s1, __const__ s x (v :: rest) = (Completion.normal (), s1) := by
        simp [__const__, objectDefineProperty, defineOwnProperty, hi]
      obtain ⟨s1, h1⟩ := h0
      obtain ⟨_, hc, _, _, hd⟩ := const_normal s s1 x _ h1
      exact ⟨s1, h1, hd, hc⟩

/-- C11: for `x` in the dead zone, `__let__(x, v)` and `__const__(x, v)` complete
normally instead of being refused; afterwards `__scope__.x` evaluates to `v`, an
assignment to the `__let__` binding completes and is read back, and an
assignment to the `__const__` binding throws TypeError "Assignment to constant
variable". -/
theorem C11_dead_zone_initialization (s : State) (x : String) (h : DeadZone s x)
    (v : Value) (rest : List Value) :
    (∃ s1, __let__ s x (v :: rest) = (Completion.normal (), s1) ∧
      read s1 x = (Completion.normal v, s1) ∧
      ∀ (strict : Bool) (w : Value), ∃ s2,
        write strict s1 x w = (Completion.normal (), s2) ∧
        read s2 x = (Completion.normal w, s2)) ∧
    (∃ s1, __const__ s x (v :: rest) = (Completion.normal (), s1) ∧
      read s1 x = (Completion.normal v, s1) ∧
      ∀ (strict : Bool) (w : Value),
        write strict s1 x w =
          (Completion.throw (JSError.TypeError "Assignment to constant variable"), s1)) := by
  constructor
  · obtain ⟨s1, h1, hd, hc⟩ := declare_of_deadZone false s x v rest h
    refine ⟨s1, h1, ?_, ?_⟩
    · rw [read_declared s1 x false _ hd, hc]
      simp [List.getD]
    · intro strict w
      refine ⟨_, write_mutable strict s1 x _ w hd, ?_⟩
      have hd2 : Declared { s1 with cells := s1.cells.set s.cells.length w } x false
          s.cells.length := hd
      rw [read_declared _ x false _ hd2]
      simp [List.getD, hc]
  · obtain ⟨s1, h1, hd, hc⟩ := declare_of_deadZone true s x v rest h
    refine ⟨s1, h1, ?_, ?_⟩
    · rw [read_declared s1 x true _ hd, hc]
      simp [List.getD]
    · intro strict w
      exact write_frozen strict s1 x _ w hd

theorem C11_dead_zone_initialization_witness :
    DeadZone (predeclare ["x"] initial).2 "x" ∧
    (∃ s1, __let__ (predeclare ["x"] initial).2 "x" [Value.one] = (Completion.normal (), s1) ∧
      read s1 "x" = (Completion.normal Value.one, s1) ∧
      ∀ (strict : Bool) (w : Value), ∃ s2,
        write strict s1 "x" w = (Completion.normal (), s2) ∧
        read s2 "x" = (Completion.normal w, s2)) ∧
    (∃ s1, __const__ (predeclare ["x"] initial).2 "x" [Value.one] =
        (Completion.normal (), s1) ∧
      read s1 "x" = (Completion.normal Value.one, s1) ∧
      ∀ (strict : Bool) (w : Value),
        write strict s1 "x" w =
          (Completion.throw (JSError.TypeError "Assignment to constant variable"), s1)) :=
  ⟨⟨0, by decide⟩,
    C11_dead_zone_initialization (predeclare ["x"] initial).2 "x" ⟨0, by decide⟩ Value.one []⟩

/-! ## The own-property check of the loop -/

/-- With the built-in `hasOwnProperty` in reach (no own property of that name,
prototype `Object.prototype`), an iteration throws the SyntaxError for a name
that is an own property and registers any other name in the dead zone. -/
theorem predeclareFrom_cons_builtin (i : Nat) (x : String) (rest : List String) (s : State)
    (hown : getOwnProperty s.scope "hasOwnProperty" = none)
    (hproto : s.proto = Proto.objectPrototype) :
    predeclareFrom i (x :: rest) s =
      if (getOwnProperty s.scope x).isSome then
        (Completion.throw (JSError.SyntaxError
          ("Identifier " ++ x ++ " has already been declared")),
          { s with property := some x })
      else
        predeclareFrom (i + 1) rest
          { s with
            scope := s.scope ++
              [(x, Property.accessor (some (Fn.deadZoneGet i)) none false true)],
            property := some x } := by
  have hcall : hasOwnPropertyCall { s with property := some x } x =
      (Completion.normal (getOwnProperty s.scope x).isSome, { s with property := some x }) := by
    simp [hasOwnPropertyCall, read, hown, hproto, objectPrototypeGet, objectPrototypeMethods]
  conv_lhs => rw [predeclareFrom]
  rw [hcall]
  cases hx : getOwnProperty s.scope x with
  | some p => simp [propertyText]
  | none =>
      have hd : defineOwnProperty s.scope x
          { configurable := true, enumerable := false, get := Fn.deadZoneGet i, set := none }
          = some (s.scope ++
              [(x, Property.accessor (some (Fn.deadZoneGet i)) none false true)]) :=
        defineOwnProperty_of_none s.scope x _ hx
      simp [propertyText, objectDefineProperty, hd]

/-- C12 (the code at the failing inputs): once `hasOwnProperty` itself is a name of
the list, the check `__scope__.hasOwnProperty(property)` of the next iteration
calls the dead-zone getter. With `["hasOwnProperty", "x"]` the loop throws a
ReferenceError although `x` is no own property, and `x` is not registered; with
`["hasOwnProperty", "hasOwnProperty"]` the duplicate is met with the same
ReferenceError, not with the SyntaxError that `["x", "x"]` gets. -/
theorem C12_own_property_check_is_shadowed :
    predeclare ["hasOwnProperty", "x"] initial =
      (Completion.throw (JSError.ReferenceError "Cannot access x before initialization"),
        { scope := [("hasOwnProperty",
            Property.accessor (some (Fn.deadZoneGet 0)) none false true)],
          proto := Proto.objectPrototype, cells := [], property := some "x" }) ∧
    getOwnProperty (predeclare ["hasOwnProperty", "x"] initial).2.scope "x" = none ∧
    (predeclare ["hasOwnProperty", "hasOwnProperty"] initial).1 =
      Completion.throw
        (JSError.ReferenceError "Cannot access hasOwnProperty before initialization") ∧
    (predeclare ["x", "x"] initial).1 =
      Completion.throw (JSError.SyntaxError "Identifier x has already been declared") := by
  decide

/-- C13 (as the code has it): when `x` is not an accessor of the scope object (never
declared, never pre-registered), `__scope__.x` completes normally and leaves the
state as it was; with no own property `x` the value is what the prototype
answers, `undefined` for every name that `Object.prototype` does not define. -/
theorem C13_undeclared_read_returns (s : State) (x : String)
    (h : ∀ g st e c, getOwnProperty s.scope x ≠ some (Property.accessor g st e c)) :
    ∃ v, read s x = (Completion.normal v, s) ∧
      (getOwnProperty s.scope x = none →
        v = (match s.proto with
          | Proto.objectPrototype => objectPrototypeGet x
          | Proto.null => Value.undefined)) ∧
      (getOwnProperty s.scope x = none → x ≠ "__proto__" → x ≠ "constructor" →
        x ∉ objectPrototypeMethods → v = Value.undefined) := by
  cases hg : getOwnProperty s.scope x with
  | some p =>
      cases p with
      | data v w e c =>
          refine ⟨v, ?_, ?_, ?_⟩
          · simp [read, hg]
          · intro h0; cases h0
          · intro h0; cases h0
      | accessor g st e c => exact absurd hg (h g st e c)
  | none =>
      cases hp : s.proto with
      | objectPrototype =>
          refine ⟨objectPrototypeGet x, ?_, ?_, ?_⟩
          · simp [read, hg, hp]
          · intro _; rfl
          · intro _ h1 h2 h3
            simp [objectPrototypeGet, h1, h2, h3]
      | null =>
          refine ⟨Value.undefined, ?_, ?_, ?_⟩
          · simp [read, hg, hp]
          · intro _; rfl
          · intro _ _ _ _; rfl

theorem C13_undeclared_read_returns_witness :
    (∀ g st e c, getOwnProperty (__let__ initial "y" [Value.one]).2.scope "x" ≠
      some (Property.accessor g st e c)) ∧
    ∃ v, read (__let__ initial "y" [Value.one]).2 "x" =
        (Completion.normal v, (__let__ initial "y" [Value.one]).2) ∧
      (getOwnProperty (__let__ initial "y" [Value.one]).2.scope "x" = none →
        v = (match (__let__ initial "y" [Value.one]).2.proto with
          | Proto.objectPrototype => objectPrototypeGet "x"
          | Proto.null => Value.undefined)) ∧
      (getOwnProperty (__let__ initial "y" [Value.one]).2.scope "x" = none →
        "x" ≠ "__proto__" → "x" ≠ "constructor" →
        "x" ∉ objectPrototypeMethods → v = Value.undefined) :=
  ⟨(fun g st e c hh => by
      have h0 : getOwnProperty (__let__ initial "y" [Value.one]).2.scope "x" = none := by
        decide
      rw [h0] at hh
      cases hh),
    C13_undeclared_read_returns (__let__ initial "y" [Value.one]).2 "x"
      (fun g st e c hh => by
        have h0 : getOwnProperty (__let__ initial "y" [Value.one]).2.scope "x" = none := by
          decide
        rw [h0] at hh
        cases hh)⟩

/-- C13 (as claimed) fails: in the empty scope, and in a scope that declares only
`y`, the expression `__scope__.x` for the undeclared `x` completes normally with
`undefined`; no error is thrown. -/
theorem C13_undeclared_read_does_not_fail :
    read initial "x" = (Completion.normal Value.undefined, initial) ∧
    read (__let__ initial "y" [Value.one]).2 "x" =
      (Completion.normal Value.undefined, (__let__ initial "y" [Value.one]).2) ∧
    (∀ err, (read initial "x").1 ≠ Completion.throw err) := by
  refine ⟨by decide, by decide, ?_⟩
  intro err h
  have h0 : (read initial "x").1 = Completion.normal Value.undefined := by decide
  rw [h0] at h
  cases h

/-- C16: as the source is written, `__variable__` is empty when the loop runs: the
loop makes no iteration, completes normally, assigns nothing to `property`, and
leaves the scope object without own properties, so no name is in the dead zone
and none is declared. -/
theorem C16_loop_is_a_no_op :
    __variable__.length = 0 ∧
    moduleBody = (Completion.normal (), initial) ∧
    moduleBody.2.scope = [] ∧
    moduleBody.2.property = none ∧
    (∀ x, getOwnProperty moduleBody.2.scope x = none) ∧
    (∀ x, ¬ DeadZone moduleBody.2 x) := by
  refine ⟨rfl, rfl, rfl, rfl, fun x => rfl, ?_⟩
  rintro x ⟨i, hi⟩
  have h0 : getOwnProperty moduleBody.2.scope x = none := rfl
  rw [h0] at hi
  cases hi

/-- C17 (the code at the failing input): with `__variable__ = ["a", "b"]` the loop
completes and both names are in the dead zone, but every getter reads the one
`var property`, which holds `"b"` after the loop: reading `a` throws
ReferenceError "Cannot access b before initialization", not the message that
names `a`. -/
theorem C17_message_names_the_last_identifier :
    (predeclare ["a", "b"] initial).1 = Completion.normal () ∧
    (predeclare ["a", "b"] initial).2.property = some "b" ∧
    (read (predeclare ["a", "b"] initial).2 "a").1 =
      Completion.throw (JSError.ReferenceError "Cannot access b before initialization") ∧
    (read (predeclare ["a", "b"] initial).2 "a").1 ≠
      Completion.throw (JSError.ReferenceError "Cannot access a before initialization") ∧
    (read (predeclare ["a", "b"] initial).2 "b").1 =
      Completion.throw (JSError.ReferenceError "Cannot access b before initialization") := by
  decide

/-! ## Other keys are left alone -/

theorem getOwnProperty_append_other (t : PropertyTable) (key k : String) (p : Property)
    (h : k ≠ key) : getOwnProperty (t ++ [(key, p)]) k = getOwnProperty t k := by
  unfold getOwnProperty
  induction t with
  | nil =>
      have hb : (k == key) = false := by simpa using h
      simp [List.lookup, hb]
  | cons kp t ih =>
      obtain ⟨k0, q⟩ := kp
      by_cases hk : k = k0
      · subst hk; simp [List.lookup]
      · have hb : (k == k0) = false := by simpa using hk
        simp only [List.cons_append, List.lookup, hb]
        exact ih

theorem getOwnProperty_map_other (t : PropertyTable) (key k : String) (p : Property)
    (h : k ≠ key) :
    getOwnProperty (t.map (fun kp => if kp.1 = key then (key, p) else kp)) k =
      getOwnProperty t k := by
  unfold getOwnProperty
  induction t with
  | nil => rfl
  | cons kp t ih =>
      obtain ⟨k0, q⟩ := kp
      have hbk : (k == key) = false := by simpa using h
      by_cases hk0 : k0 = key
      · subst hk0
        show List.lookup k ((if k0 = k0 then (k0, p) else (k0, q)) :: _) = _
        rw [if_pos rfl]
        simp only [List.lookup, hbk]
        exact ih
      · show List.lookup k ((if k0 = key then (key, p) else (k0, q)) :: _) = _
        rw [if_neg hk0]
        by_cases hk : k = k0
        · subst hk; simp [List.lookup]
        · have hb : (k == k0) = false := by simpa using hk
          simp only [List.lookup, hb]
          exact ih

theorem getOwnProperty_setOwnProperty_other (t : PropertyTable) (key k : String)
    (p : Property) (h : k ≠ key) :
    getOwnProperty (setOwnProperty t key p) k = getOwnProperty t k := by
  unfold setOwnProperty
  cases getOwnProperty t key with
  | none => exact getOwnProperty_append_other t key k p h
  | some q => exact getOwnProperty_map_other t key k p h

/-- An accepted definition under `key` changes no other own property. -/
theorem defineOwnProperty_other (t t1 : PropertyTable) (key k : String) (d : Descriptor)
    (hd : defineOwnProperty t key d = some t1) (h : k ≠ key) :
    getOwnProperty t1 k = getOwnProperty t k := by
  unfold defineOwnProperty at hd
  cases hc : getOwnProperty t key with
  | none =>
      rw [hc] at hd
      simp only [Option.some.injEq] at hd
      subst hd
      exact getOwnProperty_append_other t key k _ h
  | some cur =>
      rw [hc] at hd
      cases cur with
      | data v w e c =>
          cases c with
          | false => simp at hd
          | true =>
              simp only [if_true, Option.some.injEq] at hd
              subst hd
              exact getOwnProperty_setOwnProperty_other t key k _ h
      | accessor g st e c =>
          cases c with
          | true =>
              simp only [if_true, Option.some.injEq] at hd
              subst hd
              exact getOwnProperty_setOwnProperty_other t key k _ h
          | false =>
              have ht : t1 = t := by
                by_cases h1 : d.configurable = true
                · simp [h1] at hd
                · by_cases h2 : d.enumerable = e
                  · by_cases h3 : g = some d.get
                    · cases hds : d.set with
                      | none => simpa [h1, h2, h3, hds] using hd.symm
                      | some f1 =>
                          by_cases h4 : st = some f1
                          · simpa [h1, h2, h3, hds, h4] using hd.symm
                          · simp [h1, h2, h3, hds, h4] at hd
                    · simp [h1, h2, h3] at hd
                  · simp [h1, h2] at hd
              rw [ht]

/-! ## The invariant of reachable states -/

theorem binding_inj (f1 f2 : Bool) (e1 e2 : Nat) (h : binding f1 e1 = binding f2 e2) :
    f1 = f2 ∧ e1 = e2 := by
  cases f1 <;> cases f2 <;> simp [binding] at h <;> simp [h]

theorem declared_iff (s : State) (k : String) (frozen : Bool) (env : Nat) :
    Declared s k frozen env ↔ getOwnProperty s.scope k = some (binding frozen env) :=
  Iff.rfl

theorem inv_initial : Inv initial :=
  ⟨fun k p h => by simp [initial, getOwnProperty] at h,
   fun k1 k2 f1 f2 env h _ => by simp [Declared, initial, getOwnProperty] at h⟩

/-- In a state with the invariant the activation of a declared name exists. -/
theorem inv_env_lt (s : State) (hinv : Inv s) (k : String) (frozen : Bool) (env : Nat)
    (hd : Declared s k frozen env) : env < s.cells.length := by
  rcases hinv.shaped k _ hd with ⟨v, w, e, c, h⟩ | ⟨i, h⟩ | ⟨f, e, h, hlt⟩
  · cases frozen <;> simp at h
  · cases frozen <;> simp at h
  · have := (binding_inj frozen f env e h).2
    omega

/-- The invariant does not look at `proto` or `property`, and survives a heap
that keeps or gains cells. -/
theorem inv_of_scope_eq (s s1 : State) (hinv : Inv s) (hs : s1.scope = s.scope)
    (hc : s.cells.length ≤ s1.cells.length) : Inv s1 := by
  constructor
  · intro k p hk
    rw [hs] at hk
    rcases hinv.shaped k p hk with h | h | ⟨f, e, h, hlt⟩
    · exact Or.inl h
    · exact Or.inr (Or.inl h)
    · exact Or.inr (Or.inr ⟨f, e, h, by omega⟩)
  · intro k1 k2 f1 f2 env h1 h2
    have h1' : Declared s k1 f1 env := by unfold Declared at h1 ⊢; rw [← hs]; exact h1
    have h2' : Declared s k2 f2 env := by unfold Declared at h2 ⊢; rw [← hs]; exact h2
    exact hinv.distinct k1 k2 f1 f2 env h1' h2'

/-- The invariant survives a change of one own property, when the new property
is shaped and, if it is a binding, belongs to a new activation. -/
theorem inv_update (s s1 : State) (hinv : Inv s) (key : String) (p1 : Property)
    (hkey : getOwnProperty s1.scope key = some p1)
    (hother : ∀ k, k ≠ key → getOwnProperty s1.scope k = getOwnProperty s.scope k)
    (hc : s.cells.length ≤ s1.cells.length)
    (hshape : Shaped s1.cells.length p1)
    (hnew : ∀ f e, p1 = binding f e → s.cells.length ≤ e) : Inv s1 := by
  constructor
  · intro k p hk
    by_cases hkk : k = key
    · subst hkk
      rw [hkey] at hk
      simp only [Option.some.injEq] at hk
      subst hk
      exact hshape
    · rw [hother k hkk] at hk
      rcases hinv.shaped k p hk with h | h | ⟨f, e, h, hlt⟩
      · exact Or.inl h
      · exact Or.inr (Or.inl h)
      · exact Or.inr (Or.inr ⟨f, e, h, by omega⟩)
  · intro k1 k2 f1 f2 env h1 h2
    by_cases hk1 : k1 = key
    · by_cases hk2 : k2 = key
      · rw [hk1, hk2]
      · exfalso
        subst hk1
        have hb : p1 = binding f1 env := by
          have := (declared_iff s1 k1 f1 env).mp h1
          rw [hkey] at this
          exact Option.some.inj this
        have hge := hnew f1 env hb
        have h2' : Declared s k2 f2 env := by
          unfold Declared at h2 ⊢; rw [← hother k2 hk2]; exact h2
        have := inv_env_lt s hinv k2 f2 env h2'
        omega
    · by_cases hk2 : k2 = key
      · exfalso
        subst hk2
        have hb : p1 = binding f2 env := by
          have := (declared_iff s1 k2 f2 env).mp h2
          rw [hkey] at this
          exact Option.some.inj this
        have hge := hnew f2 env hb
        have h1' : Declared s k1 f1 env := by
          unfold Declared at h1 ⊢; rw [← hother k1 hk1]; exact h1
        have := inv_env_lt s hinv k1 f1 env h1'
        omega
      · have h1' : Declared s k1 f1 env := by
          unfold Declared at h1 ⊢; rw [← hother k1 hk1]; exact h1
        have h2' : Declared s k2 f2 env := by
          unfold Declared at h2 ⊢; rw [← hother k2 hk2]; exact h2
        exact hinv.distinct k1 k2 f1 f2 env h1' h2'

theorem call_cells_length (f : Fn) (args : List Value) (s : State) :
    (call f args s).2.cells.length = s.cells.length := by
  cases f <;> simp [call]

theorem read_cells_length (s : State) (key : String) :
    (read s key).2.cells.length = s.cells.length := by
  unfold read
  cases getOwnProperty s.scope key with
  | none => cases s.proto <;> rfl
  | some p =>
      cases p with
      | data v w e c => rfl
      | accessor g st e c =>
          cases g with
          | none => rfl
          | some g => exact call_cells_length g [] s

theorem inv_read (s : State) (key : String) (hinv : Inv s) : Inv (read s key).2 :=
  inv_of_scope_eq s _ hinv (read_frame s key).1 (by rw [read_cells_length])

/-- A declared name refuses the accessor of the activation `n` whenever its own
activation is an earlier one. -/
theorem defineOwnProperty_declared_lt (t : PropertyTable) (x : String) (frozen : Bool)
    (env n : Nat) (hd : getOwnProperty t x = some (binding frozen env)) (hlt : env < n)
    (g : Nat → Fn) (st : Option Fn) (hg : g = Fn.letGet ∨ g = Fn.constGet) :
    defineOwnProperty t x
      { configurable := false, enumerable := false, get := g n, set := st } = none := by
  have hne : env ≠ n := Nat.ne_of_lt hlt
  rcases hg with hg | hg <;> subst hg <;> cases frozen <;>
    simp [defineOwnProperty, binding] at hd ⊢ <;> simp [hd, hne]

/-- The definition that both declaring functions end with keeps the invariant. -/
theorem inv_define_binding (s : State) (hinv : Inv s) (key : String) (v : Value)
    (frozen : Bool) (g st : Fn)
    (hb : Property.accessor (some g) (some st) false false = binding frozen s.cells.length) :
    Inv (objectDefineProperty { s with cells := s.cells ++ [v] } key
      { configurable := false, enumerable := false, get := g, set := some st }).2 := by
  unfold objectDefineProperty
  cases hd : defineOwnProperty s.scope key
      { configurable := false, enumerable := false, get := g, set := some st } with
  | none =>
      exact inv_of_scope_eq s _ hinv rfl (by simp)
  | some t =>
      have hinst := defineOwnProperty_installs s.scope t key _ st rfl hd
      refine inv_update s _ hinv key (binding frozen s.cells.length) ?_ ?_ (by simp) ?_ ?_
      · rw [← hb]; exact hinst
      · intro k hk
        exact defineOwnProperty_other s.scope t key k _ hd hk
      · exact Or.inr (Or.inr ⟨frozen, s.cells.length, rfl, by simp⟩)
      · intro f e he
        have := (binding_inj frozen f s.cells.length e he).2
        omega

theorem inv_declare (frozen : Bool) (s : State) (key : String) (rest : List Value)
    (hinv : Inv s) : Inv (declare frozen s key rest).2 := by
  cases frozen with
  | false =>
      exact inv_define_binding s hinv key _ false _ _ rfl
  | true =>
      show Inv (__const__ s key rest).2
      unfold __const__
      by_cases ha : rest.length + 1 = 1
      · rw [if_pos ha]; exact hinv
      · rw [if_neg ha]
        exact inv_define_binding s hinv key _ true _ _ rfl

theorem inv_write (strict : Bool) (s : State) (key : String) (w : Value) (hinv : Inv s) :
    Inv (write strict s key w).2 := by
  have hcreate : getOwnProperty s.scope key = none → Inv (createDataProperty s key w) := by
    intro hnone
    refine inv_update s _ hinv key (Property.data w true true true)
      (getOwnProperty_append_of_none s.scope key _ hnone)
      (fun k hk => getOwnProperty_append_other s.scope key k _ hk) (Nat.le_refl _)
      (Or.inl ⟨_, _, _, _, rfl⟩) ?_
    intro f e he
    cases f <;> simp [binding] at he
  unfold write
  cases hg : getOwnProperty s.scope key with
  | none =>
      cases hp : s.proto with
      | null => exact hcreate hg
      | objectPrototype =>
          by_cases hk : key = "__proto__"
          · simp only [hk, if_true]
            cases w with
            | intrinsic n =>
                by_cases hn : n = "Object.prototype" <;> simp [hn] <;> exact hinv
            | null => exact inv_of_scope_eq s _ hinv rfl (Nat.le_refl _)
            | undefined => exact hinv
            | boolean _ => exact hinv
            | number _ => exact hinv
            | string _ => exact hinv
            | object _ => exact hinv
          · simp only [hk, if_false]
            exact hcreate hg
  | some p =>
      cases p with
      | data v wr e c =>
          cases wr with
          | true =>
              refine inv_update s _ hinv key (Property.data w true e c)
                (getOwnProperty_setOwnProperty s.scope key _)
                (fun k hk => getOwnProperty_setOwnProperty_other s.scope key k _ hk)
                (Nat.le_refl _) (Or.inl ⟨_, _, _, _, rfl⟩) ?_
              intro f e1 he
              cases f <;> simp [binding] at he
          | false => cases strict <;> exact hinv
      | accessor g st e c =>
          cases st with
          | none => cases strict <;> exact hinv
          | some f =>
              have hi : Inv (call f [w] s).2 :=
                inv_of_scope_eq s _ hinv (call_frame f [w] s).1
                  (by rw [call_cells_length])
              rcases hcall : call f [w] s with ⟨r, s1⟩
              rw [hcall] at hi
              cases r <;> simp only [hcall] <;> exact hi

theorem hasOwnPropertyCall_state (s : State) (key : String) :
    (hasOwnPropertyCall s key).2 = (read s "hasOwnProperty").2 := by
  unfold hasOwnPropertyCall
  rcases hr : read s "hasOwnProperty" with ⟨c, s1⟩
  cases c with
  | throw err => rfl
  | outside => rfl
  | normal f =>
      cases f with
      | intrinsic n => by_cases hn : n = "Object.prototype.hasOwnProperty" <;> simp [hn]
      | undefined => rfl
      | null => rfl
      | boolean _ => rfl
      | number _ => rfl
      | string _ => rfl
      | object _ => rfl

/-- Whatever way the loop ends, it keeps the own properties it found. -/
theorem predeclareFrom_keeps (names : List String) :
    ∀ (i : Nat) (s : State) (k : String) (p : Property),
      getOwnProperty s.scope k = some p →
      getOwnProperty (predeclareFrom i names s).2.scope k = some p := by
  induction names with
  | nil => intro i s k p h; exact h
  | cons x rest ih =>
      intro i s k p h
      unfold predeclareFrom
      have hst := hasOwnPropertyCall_state { s with property := some x } x
      have hfr := read_frame { s with property := some x } "hasOwnProperty"
      rcases hc : hasOwnPropertyCall { s with property := some x } x with ⟨c, s1⟩
      rw [hc] at hst
      have hs1 : s1.scope = s.scope := by
        have : s1 = (read { s with property := some x } "hasOwnProperty").2 := hst
        rw [this]; exact hfr.1
      have hk1 : getOwnProperty s1.scope k = some p := by rw [hs1]; exact h
      cases c with
      | throw err => exact hk1
      | outside => exact hk1
      | normal b =>
          obtain ⟨_, hp, hb⟩ := hasOwnPropertyCall_normal _ s1 x b hc
          cases b with
          | true => exact hk1
          | false =>
              have hx : propertyText s1.property = x := by rw [hp]; rfl
              have hnone : getOwnProperty s1.scope x = none := by
                rw [hs1]
                cases hg : getOwnProperty s.scope x with
                | none => rfl
                | some q =>
                    have : getOwnProperty
                        ({ s with property := some x } : State).scope x = some q := hg
                    rw [this] at hb
                    simp at hb
              simp only [hx, objectDefineProperty,
                defineOwnProperty_of_none s1.scope x _ hnone]
              apply ih
              exact getOwnProperty_append_of_some s1.scope _ k p hk1

theorem inv_predeclareFrom (names : List String) :
    ∀ (i : Nat) (s : State), Inv s → Inv (predeclareFrom i names s).2 := by
  induction names with
  | nil => intro i s h; exact h
  | cons x rest ih =>
      intro i s hinv
      unfold predeclareFrom
      have hst := hasOwnPropertyCall_state { s with property := some x } x
      have h0 : Inv { s with property := some x } :=
        inv_of_scope_eq s _ hinv rfl (Nat.le_refl _)
      have h1 := inv_read _ "hasOwnProperty" h0
      have hfr := read_frame { s with property := some x } "hasOwnProperty"
      rcases hc : hasOwnPropertyCall { s with property := some x } x with ⟨c, s1⟩
      rw [hc] at hst
      have hs1e : s1 = (read { s with property := some x } "hasOwnProperty").2 := hst
      have hi1 : Inv s1 := by rw [hs1e]; exact h1
      have hs1 : s1.scope = s.scope := by rw [hs1e]; exact hfr.1
      cases c with
      | throw err => exact hi1
      | outside => exact hi1
      | normal b =>
          obtain ⟨_, hp, hb⟩ := hasOwnPropertyCall_normal _ s1 x b hc
          cases b with
          | true => exact hi1
          | false =>
              have hx : propertyText s1.property = x := by rw [hp]; rfl
              have hnone : getOwnProperty s1.scope x = none := by
                rw [hs1]
                cases hg : getOwnProperty s.scope x with
                | none => rfl
                | some q =>
                    have : getOwnProperty
                        ({ s with property := some x } : State).scope x = some q := hg
                    rw [this] at hb
                    simp at hb
              simp only [hx, objectDefineProperty,
                defineOwnProperty_of_none s1.scope x _ hnone]
              apply ih
              refine inv_update s1 _ hi1 x
                (Property.accessor (some (Fn.deadZoneGet i)) none false true)
                (getOwnProperty_append_of_none s1.scope x _ hnone)
                (fun k hk => getOwnProperty_append_other s1.scope x k _ hk) (Nat.le_refl _)
                (Or.inr (Or.inl ⟨i, rfl⟩)) ?_
              intro f e he
              cases f <;> simp [binding] at he

theorem getOwnProperty_filter_self (t : PropertyTable) (key : String) :
    getOwnProperty (t.filter (fun kp => decide (kp.1 ≠ key))) key = none := by
  unfold getOwnProperty
  induction t with
  | nil => rfl
  | cons kp t ih =>
      obtain ⟨k0, q⟩ := kp
      by_cases hk : k0 = key
      · simp only [List.filter, hk, ne_eq, not_true_eq_false, decide_False]
        exact ih
      · have hb : (key == k0) = false := by
          simpa using (fun e : key = k0 => hk e.symm)
        simp only [List.filter, hk, ne_eq, not_false_eq_true, decide_True, List.lookup, hb]
        exact ih

theorem getOwnProperty_filter_other (t : PropertyTable) (key k : String) (h : k ≠ key) :
    getOwnProperty (t.filter (fun kp => decide (kp.1 ≠ key))) k = getOwnProperty t k := by
  unfold getOwnProperty
  induction t with
  | nil => rfl
  | cons kp t ih =>
      obtain ⟨k0, q⟩ := kp
      by_cases hk : k0 = key
      · have hb : (k == k0) = false := by simpa [hk] using h
        simp only [List.filter, hk, ne_eq, not_true_eq_false, decide_False, List.lookup]
        rw [hk] at hb
        simp only [hb]
        exact ih
      · simp only [List.filter, hk, ne_eq, not_false_eq_true, decide_True]
        by_cases hkk : k = k0
        · subst hkk; simp [List.lookup]
        · have hb : (k == k0) = false := by simpa using hkk
          simp only [List.lookup, hb]
          exact ih

theorem inv_delete (strict : Bool) (s : State) (key : String) (hinv : Inv s) :
    Inv (deleteProperty strict s key).2 := by
  unfold deleteProperty
  cases hg : getOwnProperty s.scope key with
  | none => exact hinv
  | some p =>
      by_cases hc : p.isConfigurable = true
      · simp only [hc, if_true]
        constructor
        · intro k q hk
          by_cases hkk : k = key
          · subst hkk
            have hk0 : getOwnProperty (s.scope.filter (fun kp => decide (kp.1 ≠ k))) k =
                some q := hk
            rw [getOwnProperty_filter_self] at hk0
            cases hk0
          · have hk0 : getOwnProperty (s.scope.filter (fun kp => decide (kp.1 ≠ key))) k =
                some q := hk
            rw [getOwnProperty_filter_other s.scope key k hkk] at hk0
            exact hinv.shaped k q hk0
        · intro k1 k2 f1 f2 env h1 h2
          have h1a : getOwnProperty (s.scope.filter (fun kp => decide (kp.1 ≠ key))) k1 =
              some (binding f1 env) := h1
          have h2a : getOwnProperty (s.scope.filter (fun kp => decide (kp.1 ≠ key))) k2 =
              some (binding f2 env) := h2
          have hd1 : k1 ≠ key := by
            intro e; subst e
            rw [getOwnProperty_filter_self] at h1a
            cases h1a
          have hd2 : k2 ≠ key := by
            intro e; subst e
            rw [getOwnProperty_filter_self] at h2a
            cases h2a
          rw [getOwnProperty_filter_other s.scope key k1 hd1] at h1a
          rw [getOwnProperty_filter_other s.scope key k2 hd2] at h2a
          exact hinv.distinct k1 k2 f1 f2 env h1a h2a
      · simp only [hc]
        cases strict <;> exact hinv

theorem deleteProperty_wellFormed (strict : Bool) (s : State) (key : String)
    (hwf : WellFormed s) : WellFormed (deleteProperty strict s key).2 := by
  unfold deleteProperty
  cases hg : getOwnProperty s.scope key with
  | none => exact hwf
  | some p =>
      by_cases hc : p.isConfigurable = true
      · simp only [hc, if_true]
        intro kp hkp f hf
        exact hwf kp (List.mem_of_mem_filter hkp) f hf
      · simp only [hc]
        cases strict <;> exact hwf

theorem inv_apply (s : State) (op : Op) (hinv : Inv s) : Inv (op.apply s) := by
  cases op with
  | declaring frozen key rest => exact inv_declare frozen s key rest hinv
  | reading key => exact inv_read s key hinv
  | writing strict key w => exact inv_write strict s key w hinv
  | deleting strict key => exact inv_delete strict s key hinv
  | looping names => exact inv_predeclareFrom names 0 s hinv

theorem inv_run (ops : List Op) : ∀ (s : State), Inv s → Inv (run s ops) := by
  induction ops with
  | nil => intro s h; exact h
  | cons op ops ih => intro s h; exact ih _ (inv_apply s op h)

/-! ## A declared name stays declared -/

/-- The definition that both declaring functions end with leaves every declared
name as it is, the name it is called for included. -/
theorem declared_define_binding (s : State) (hinv : Inv s) (y : String) (fr : Bool)
    (env : Nat) (hd : Declared s y fr env) (key : String) (v : Value)
    (g : Nat → Fn) (st : Option Fn) (hg : g = Fn.letGet ∨ g = Fn.constGet) :
    Declared (objectDefineProperty { s with cells := s.cells ++ [v] } key
      { configurable := false, enumerable := false, get := g s.cells.length, set := st }).2
      y fr env := by
  unfold objectDefineProperty
  cases hdef : defineOwnProperty s.scope key
      { configurable := false, enumerable := false, get := g s.cells.length, set := st } with
  | none => exact hd
  | some t =>
      by_cases hk : key = y
      · subst hk
        have := defineOwnProperty_declared_lt s.scope key fr env s.cells.length hd
          (inv_env_lt s hinv key fr env hd) g st hg
        rw [this] at hdef
        cases hdef
      · have ho := defineOwnProperty_other s.scope t key y _ hdef (fun e => hk e.symm)
        show getOwnProperty t y = _
        rw [ho]
        exact hd

theorem declared_declare (s : State) (hinv : Inv s) (y : String) (fr : Bool) (env : Nat)
    (hd : Declared s y fr env) (frozen : Bool) (key : String) (rest : List Value) :
    Declared (declare frozen s key rest).2 y fr env := by
  cases frozen with
  | false =>
      exact declared_define_binding s hinv y fr env hd key _ Fn.letGet _ (Or.inl rfl)
  | true =>
      show Declared (__const__ s key rest).2 y fr env
      unfold __const__
      by_cases ha : rest.length + 1 = 1
      · rw [if_pos ha]; exact hd
      · rw [if_neg ha]
        exact declared_define_binding s hinv y fr env hd key _ Fn.constGet _ (Or.inr rfl)

/-- An assignment under another key leaves the own property `y` as it is. -/
theorem write_other (strict : Bool) (s : State) (key y : String) (w : Value)
    (h : y ≠ key) :
    getOwnProperty (write strict s key w).2.scope y = getOwnProperty s.scope y := by
  unfold write
  cases hg : getOwnProperty s.scope key with
  | none =>
      cases hp : s.proto with
      | null => exact getOwnProperty_append_other s.scope key y _ h
      | objectPrototype =>
          by_cases hk : key = "__proto__"
          · simp only [hk, if_true]
            cases w with
            | intrinsic n => by_cases hn : n = "Object.prototype" <;> simp [hn]
            | null => rfl
            | undefined => rfl
            | boolean _ => rfl
            | number _ => rfl
            | string _ => rfl
            | object _ => rfl
          · simp only [hk, if_false]
            exact getOwnProperty_append_other s.scope key y _ h
  | some p =>
      cases p with
      | data v wr e c =>
          cases wr with
          | true => exact getOwnProperty_setOwnProperty_other s.scope key y _ h
          | false => cases strict <;> rfl
      | accessor g st e c =>
          cases st with
          | none => cases strict <;> rfl
          | some f =>
              have hf := (call_frame f [w] s).1
              rcases hcall : call f [w] s with ⟨r, s1⟩
              rw [hcall] at hf
              have hf1 : s1.scope = s.scope := hf
              cases r <;> simp only [hcall] <;> rw [hf1]

theorem declared_write (strict : Bool) (s : State) (y : String) (fr : Bool) (env : Nat)
    (hd : Declared s y fr env) (key : String) (w : Value) :
    Declared (write strict s key w).2 y fr env := by
  by_cases hk : y = key
  · subst hk
    cases fr with
    | false => rw [write_mutable strict s y env w hd]; exact hd
    | true => rw [write_frozen strict s y env w hd]; exact hd
  · unfold Declared
    rw [write_other strict s key y w hk]
    exact hd

theorem declared_delete (strict : Bool) (s : State) (y : String) (fr : Bool) (env : Nat)
    (hd : Declared s y fr env) (key : String) :
    Declared (deleteProperty strict s key).2 y fr env := by
  unfold deleteProperty
  cases hg : getOwnProperty s.scope key with
  | none => exact hd
  | some p =>
      by_cases hc : p.isConfigurable = true
      · simp only [hc, if_true]
        have hk : y ≠ key := by
          intro e
          subst e
          have hd0 : getOwnProperty s.scope y = some (binding fr env) := hd
          rw [hg] at hd0
          have hp : p = binding fr env := Option.some.inj hd0
          rw [hp] at hc
          cases fr <;> simp [binding, Property.isConfigurable] at hc
        show getOwnProperty (s.scope.filter (fun kp => decide (kp.1 ≠ key))) y = _
        rw [getOwnProperty_filter_other s.scope key y hk]
        exact hd
      · simp only [hc]
        cases strict <;> exact hd

theorem declared_apply (s : State) (hinv : Inv s) (y : String) (fr : Bool) (env : Nat)
    (hd : Declared s y fr env) (op : Op) : Declared (op.apply s) y fr env := by
  cases op with
  | declaring frozen key rest => exact declared_declare s hinv y fr env hd frozen key rest
  | reading key =>
      show getOwnProperty (read s key).2.scope y = _
      rw [(read_frame s key).1]
      exact hd
  | writing strict key w => exact declared_write strict s y fr env hd key w
  | deleting strict key => exact declared_delete strict s y fr env hd key
  | looping names => exact predeclareFrom_keeps names 0 s y _ hd

theorem declared_run (ops : List Op) :
    ∀ (s : State), Inv s → ∀ (y : String) (fr : Bool) (env : Nat),
      Declared s y fr env → Declared (run s ops) y fr env := by
  induction ops with
  | nil => intro s _ y fr env hd; exact hd
  | cons op ops ih =>
      intro s hinv y fr env hd
      exact ih _ (inv_apply s op hinv) y fr env (declared_apply s hinv y fr env hd op)

theorem not_deadZone_of_declared (s : State) (y : String) (fr : Bool) (env : Nat)
    (hd : Declared s y fr env) : ¬ DeadZone s y := by
  rintro ⟨i, hi⟩
  unfold Declared at hd
  rw [hi] at hd
  cases fr <;> simp at hd

/-- C14: take any state reached from the empty scope by declarations, reads, writes,
deletions and runs of the loop, and a `__let__` or `__const__` call on it that
completes normally. After any further such operations, successful or not, the
name is still the binding of that call (same kind, same activation), it is not
in the dead zone, and `__scope__.x` completes normally with the value held for
it. -/
theorem C14_initialized_stays_initialized (ops0 : List Op) (frozen : Bool) (x : String)
    (rest : List Value) (s : State)
    (h : declare frozen (run initial ops0) x rest = (Completion.normal (), s))
    (ops : List Op) :
    Declared (run s ops) x frozen (run initial ops0).cells.length ∧
    ¬ DeadZone (run s ops) x ∧
    read (run s ops) x =
      (Completion.normal
        ((run s ops).cells.getD (run initial ops0).cells.length Value.undefined),
        run s ops) := by
  have hinv0 : Inv (run initial ops0) := inv_run ops0 initial inv_initial
  have hinv : Inv s := by
    have := inv_declare frozen (run initial ops0) x rest hinv0
    rw [h] at this
    exact this
  have hd : Declared s x frozen (run initial ops0).cells.length := by
    cases frozen with
    | false => exact (let_normal _ s x rest h).2.2.2
    | true => exact (const_normal _ s x rest h).2.2.2.2
  have hd1 := declared_run ops s hinv x frozen _ hd
  exact ⟨hd1, not_deadZone_of_declared _ x frozen _ hd1, read_declared _ x frozen _ hd1⟩

theorem C14_initialized_stays_initialized_witness :
    declare true (run initial [Op.declaring false "y" [Value.one]]) "PI" [Value.pi] =
      (Completion.normal (),
        (declare true (run initial [Op.declaring false "y" [Value.one]]) "PI" [Value.pi]).2) ∧
    (Declared
      (run (declare true (run initial [Op.declaring false "y" [Value.one]]) "PI" [Value.pi]).2
        [Op.writing true "PI" Value.three, Op.deleting false "PI",
         Op.declaring false "PI" [Value.two], Op.looping ["PI"]])
      "PI" true (run initial [Op.declaring false "y" [Value.one]]).cells.length ∧
    ¬ DeadZone
      (run (declare true (run initial [Op.declaring false "y" [Value.one]]) "PI" [Value.pi]).2
        [Op.writing true "PI" Value.three, Op.deleting false "PI",
         Op.declaring false "PI" [Value.two], Op.looping ["PI"]]) "PI" ∧
    read
      (run (declare true (run initial [Op.declaring false "y" [Value.one]]) "PI" [Value.pi]).2
        [Op.writing true "PI" Value.three, Op.deleting false "PI",
         Op.declaring false "PI" [Value.two], Op.looping ["PI"]]) "PI" =
      (Completion.normal
        ((run (declare true (run initial [Op.declaring false "y" [Value.one]]) "PI"
            [Value.pi]).2
          [Op.writing true "PI" Value.three, Op.deleting false "PI",
           Op.declaring false "PI" [Value.two], Op.looping ["PI"]]).cells.getD
          (run initial [Op.declaring false "y" [Value.one]]).cells.length Value.undefined),
        run (declare true (run initial [Op.declaring false "y" [Value.one]]) "PI" [Value.pi]).2
          [Op.writing true "PI" Value.three, Op.deleting false "PI",
           Op.declaring false "PI" [Value.two], Op.looping ["PI"]])) :=
  ⟨by decide,
    C14_initialized_stays_initialized [Op.declaring false "y" [Value.one]] true "PI"
      [Value.pi] _ (by decide)
      [Op.writing true "PI" Value.three, Op.deleting false "PI",
       Op.declaring false "PI" [Value.two], Op.looping ["PI"]]⟩

/-! ## The value of a declared name and operations on other names -/

/-- In a state with the invariant a read changes nothing. -/
theorem read_state_of_inv (s : State) (hinv : Inv s) (key : String) :
    (read s key).2 = s := by
  unfold read
  cases hg : getOwnProperty s.scope key with
  | none => cases s.proto <;> rfl
  | some p =>
      rcases hinv.shaped key p hg with ⟨v, w, e, c, h⟩ | ⟨i, h⟩ | ⟨f, e, h, _⟩
      · subst h; rfl
      · subst h; rfl
      · subst h; cases f <;> rfl

theorem declare_cells_getD (frozen : Bool) (s : State) (key : String) (rest : List Value)
    (env : Nat) (hlt : env < s.cells.length) :
    (declare frozen s key rest).2.cells.getD env Value.undefined =
      s.cells.getD env Value.undefined := by
  have hgrow : ∀ (d : Descriptor) (v : Value),
      (objectDefineProperty { s with cells := s.cells ++ [v] } key d).2.cells.getD env
        Value.undefined = s.cells.getD env Value.undefined := by
    intro d v
    unfold objectDefineProperty
    cases defineOwnProperty s.scope key d <;>
      simp [List.getD, List.getElem?_append_left hlt]
  cases frozen with
  | false => exact hgrow _ _
  | true =>
      show (__const__ s key rest).2.cells.getD env Value.undefined = _
      unfold __const__
      by_cases ha : rest.length + 1 = 1
      · rw [if_pos ha]
      · rw [if_neg ha]; exact hgrow _ _

/-- An assignment to `x` does not touch the variable captured for another
declared name. -/
theorem write_cells_other (strict : Bool) (s : State) (hinv : Inv s) (x y : String)
    (hxy : x ≠ y) (fr : Bool) (env : Nat) (hd : Declared s y fr env) (w : Value) :
    (write strict s x w).2.cells.getD env Value.undefined =
      s.cells.getD env Value.undefined := by
  unfold write
  cases hg : getOwnProperty s.scope x with
  | none =>
      cases hp : s.proto with
      | null => rfl
      | objectPrototype =>
          by_cases hk : x = "__proto__"
          · simp only [hk, if_true]
            cases w with
            | intrinsic n => by_cases hn : n = "Object.prototype" <;> simp [hn]
            | null => rfl
            | undefined => rfl
            | boolean _ => rfl
            | number _ => rfl
            | string _ => rfl
            | object _ => rfl
          · simp only [hk, if_false]
            rfl
  | some p =>
      rcases hinv.shaped x p hg with ⟨v, wr, e, c, h⟩ | ⟨i, h⟩ | ⟨f, e, h, _⟩
      · subst h
        cases wr with
        | true => rfl
        | false => cases strict <;> rfl
      · subst h
        cases strict <;> rfl
      · subst h
        cases f with
        | true => rfl
        | false =>
            have hne : e ≠ env := by
              intro he
              subst he
              exact hxy (hinv.distinct x y false fr e hg hd)
            simp [binding, call, List.getD, List.getElem?_set_ne hne]

theorem deleteProperty_cells (strict : Bool) (s : State) (key : String) :
    (deleteProperty strict s key).2.cells = s.cells := by
  unfold deleteProperty
  cases getOwnProperty s.scope key with
  | none => rfl
  | some p =>
      by_cases hc : p.isConfigurable = true
      · simp only [hc, if_true]
      · simp only [hc]
        cases strict <;> rfl

/-- C18: in any state reached from the empty scope, with `y` a declared binding and
`x` another name, every operation about `x` (a `__let__` or `__const__` call, a
read, an assignment, a deletion, successful or not) leaves `y` the binding it
was, and `__scope__.y` evaluates to the same value as before. -/
theorem C18_bindings_are_independent (ops0 : List Op) (x y : String) (hxy : x ≠ y)
    (frozen : Bool) (env : Nat) (hd : Declared (run initial ops0) y frozen env)
    (op : Op) (hop : op.target = some x) :
    Declared (op.apply (run initial ops0)) y frozen env ∧
    (read (op.apply (run initial ops0)) y).1 = (read (run initial ops0) y).1 := by
  have hinv : Inv (run initial ops0) := inv_run ops0 initial inv_initial
  have hd1 := declared_apply _ hinv y frozen env hd op
  refine ⟨hd1, ?_⟩
  rw [read_declared _ y frozen env hd1, read_declared _ y frozen env hd]
  have hlt := inv_env_lt _ hinv y frozen env hd
  show Completion.normal _ = Completion.normal _
  congr 1
  cases op with
  | declaring fr key rest => exact declare_cells_getD fr _ key rest env hlt
  | reading key =>
      show (read (run initial ops0) key).2.cells.getD env Value.undefined = _
      rw [read_state_of_inv _ hinv key]
  | writing strict key w =>
      have hk : key = x := by simpa [Op.target] using hop
      subst hk
      exact write_cells_other strict _ hinv key y hxy frozen env hd w
  | deleting strict key =>
      show (deleteProperty strict (run initial ops0) key).2.cells.getD env Value.undefined = _
      rw [deleteProperty_cells]
  | looping names => simp [Op.target] at hop

theorem C18_bindings_are_independent_witness :
    "x" ≠ "y" ∧
    Declared (run initial [Op.declaring false "y" [Value.one], Op.declaring false "x" []])
      "y" false 0 ∧
    (Op.writing true "x" Value.two).target = some "x" ∧
    Declared
      ((Op.writing true "x" Value.two).apply
        (run initial [Op.declaring false "y" [Value.one], Op.declaring false "x" []]))
      "y" false 0 ∧
    (read
      ((Op.writing true "x" Value.two).apply
        (run initial [Op.declaring false "y" [Value.one], Op.declaring false "x" []]))
      "y").1 =
      (read (run initial [Op.declaring false "y" [Value.one], Op.declaring false "x" []])
        "y").1 :=
  ⟨by decide, by decide, rfl,
    C18_bindings_are_independent
      [Op.declaring false "y" [Value.one], Op.declaring false "x" []] "x" "y" (by decide)
      false 0 (by decide) (Op.writing true "x" Value.two) rfl⟩

/-! ## The nested scope object -/

/-- The object made by `Object.create` has no own property, whatever the outer
scope object holds. -/
theorem objectCreate_own (s : State) (x : String) :
    getOwnProperty (objectCreate s).own x = none :=
  rfl

/-- The closing function leaves the module-level scope object as it found it. -/
theorem closingFunction_state (s : State) : (closingFunction s).2 = s :=
  rfl

/-- C15 (the code at the failing input): the module body runs, the closing function
makes the nested object and returns, and `__const__("y", 1)` declares `y` in the
module-level scope. The object that `Object.create` makes from that scope has no
own property `y`. But a declaration of `y` for a nested block, `__const__("y", 2)`
or `__let__("y", 2)`, is again a definition on the module-level `__scope__`, the
only object the declaring functions know: it throws TypeError "Cannot redefine
property: y" instead of completing, and nothing is ever defined on a nested
object. The outer binding keeps its value `1`. -/
theorem C15_nested_declaration_lands_on_outer_scope :
    (closingFunction moduleBody.2).2 = initial ∧
    (closingFunction moduleBody.2).1.own = [] ∧
    (__const__ (closingFunction moduleBody.2).2 "y" [Value.one]).1 = Completion.normal () ∧
    Declared (__const__ (closingFunction moduleBody.2).2 "y" [Value.one]).2 "y" true 0 ∧
    getOwnProperty
      (objectCreate (__const__ (closingFunction moduleBody.2).2 "y" [Value.one]).2).own
      "y" = none ∧
    (__const__ (__const__ (closingFunction moduleBody.2).2 "y" [Value.one]).2 "y"
      [Value.two]).1 =
      Completion.throw (JSError.TypeError "Cannot redefine property: y") ∧
    (__let__ (__const__ (closingFunction moduleBody.2).2 "y" [Value.one]).2 "y"
      [Value.two]).1 =
      Completion.throw (JSError.TypeError "Cannot redefine property: y") ∧
    (read (__const__ (__const__ (closingFunction moduleBody.2).2 "y" [Value.one]).2 "y"
      [Value.two]).2 "y").1 = Completion.normal Value.one := by
  decide

end Handwrite
